import Mathlib

/-!
Verification development for the CS-451 L-Store storage engine.

The engine is embedded shallowly: pages (`Project 2/lstore/page.py`) are
modelled at byte level; the table layer (`Project 3/lstore/table.py`),
the column index (`Project 3/lstore/index.py`), the query surface
(`Project 3/lstore/query.py`) and the lock manager
(`Project 3/lstore/lock_manager.py`) are modelled at value level, which
is justified by the little-endian 8-byte round trip of `Page.write` and
`Page.read` proved below.  Machine integers are `Nat` (the source calls
`int.to_bytes(8, "little")`, which only accepts values in `[0, 2^64)`
and raises otherwise; the raising paths are modelled with `Option`).
Python dictionaries are association lists, Python sets of record ids are
`Finset Nat`, and the doubly linked index nodes are an arena of nodes
addressed by position.  Clock reads (`int(time())`) are threaded as an
explicit `now` argument.  All code is sequential: the per-structure
locks of the source guard concurrent access and have no effect on the
sequential semantics modelled here.
-/

namespace LStore

/-! ### Constants (`lstore/config.py`) -/

def INDIRECTION_COLUMN : Nat := 0
def RID_COLUMN : Nat := 1
def TIMESTAMP_COLUMN : Nat := 2
def SCHEMA_ENCODING_COLUMN : Nat := 3
def DELETED_RID : Nat := 0
def PAGE_SIZE : Nat := 4096
def RECORDS_PER_PAGE : Nat := 511

/-! ### List and dictionary helpers -/

/-- Little-endian bytes of `v`, exactly `len` bytes
(`v.to_bytes(len, "little")`; the overflow raise is handled by callers). -/
def toBytesLE : Nat → Nat → List Nat
  | 0, _ => []
  | len + 1, v => v % 256 :: toBytesLE len (v / 256)

/-- `int.from_bytes(bs, "little")`. -/
def fromBytesLE : List Nat → Nat
  | [] => 0
  | b :: bs => b + 256 * fromBytesLE bs

/-- Python slice assignment `l[o:o+len(r)] = r` (in-range case). -/
def sliceSet (l : List Nat) (o : Nat) (r : List Nat) : List Nat :=
  l.take o ++ r ++ l.drop (o + r.length)

/-- Lookup in a Python dict modelled as an association list. -/
def dictGet {α : Type} : List (Nat × α) → Nat → Option α
  | [], _ => none
  | kv :: rest, k => if kv.1 = k then some kv.2 else dictGet rest k

/-- `d[k] = v`: replace in place if present, append otherwise
(matches Python dict insertion order). -/
def dictSet {α : Type} : List (Nat × α) → Nat → α → List (Nat × α)
  | [], k, v => [(k, v)]
  | kv :: rest, k, v =>
    if kv.1 = k then (k, v) :: rest else kv :: dictSet rest k v

/-- `del d[k]`. -/
def dictErase {α : Type} (d : List (Nat × α)) (k : Nat) : List (Nat × α) :=
  d.filter (fun kv => kv.1 ≠ k)

/-- Python `list.insert(n, a)`: positions past the end clamp to append. -/
def insertAt {α : Type} : Nat → α → List α → List α
  | 0, a, l => a :: l
  | _ + 1, a, [] => [a]
  | n + 1, a, b :: l => b :: insertAt n a l

/-! ### Page (`Project 2/lstore/page.py`)

A page is a 4096-byte slab: bytes 0-7 hold the TPS word, the rest holds
up to 511 record slots of 8 bytes each. -/

structure Page where
  num_records : Nat
  data : List Nat
  dirty : Bool
  pin_count : Nat
deriving Repr, DecidableEq

/-- `Page.__init__`. -/
def Page.new : Page :=
  { num_records := 0, data := List.replicate PAGE_SIZE 0,
    dirty := false, pin_count := 0 }

/-- `Page.has_capacity` (the internal `RECORDS_PER_PAGE` sanity raise is
statically unreachable since `511*8 + 8 = 4096`). -/
def Page.has_capacity (p : Page) : Bool :=
  p.num_records < RECORDS_PER_PAGE

/-- `Page.write`: append at slot `num_records` if there is capacity, and
silently return otherwise.  `none` models the `OverflowError` raised by
`to_bytes` when the value does not fit in 8 bytes; note that a full page
returns before reaching `to_bytes`. -/
def Page.write (p : Page) (value : Nat) : Option Page :=
  if p.has_capacity then
    if value < 2 ^ 64 then
      some { p with
              data := sliceSet p.data (8 + p.num_records * 8) (toBytesLE 8 value),
              num_records := p.num_records + 1,
              dirty := true }
    else none
  else some p

/-- `Page.read`: decode 8 bytes at the slot offset.  There is no bounds
check in the source; an out-of-range slice of a `bytearray` simply
yields the (possibly short) byte run that is there. -/
def Page.read (p : Page) (slot_number : Nat) : Nat :=
  fromBytesLE ((p.data.drop (8 + slot_number * 8)).take 8)

/-- Bounds-checked read as the specification describes `read(slot)`
("bounds-checked", error kind `BoundsViolation`): out-of-range slots are
reported as an error instead of produced as a value.  Written from the
specification's words, for comparison with the source's `Page.read`. -/
def Page.read_checked (p : Page) (slot_number : Nat) : Option Nat :=
  if slot_number < p.num_records then some (p.read slot_number) else none

/-- `Page.get_tps`. -/
def Page.get_tps (p : Page) : Nat :=
  fromBytesLE (p.data.take 8)

/-- `Page.set_tps` (`none` models the `to_bytes` overflow raise). -/
def Page.set_tps (p : Page) (tps_value : Nat) : Option Page :=
  if tps_value < 2 ^ 64 then
    some { p with data := sliceSet p.data 0 (toBytesLE 8 tps_value), dirty := true }
  else none

/-- `Page.update`: in-place overwrite of a previously appended slot;
returns `False` (no write) when `slot_number` is not populated. -/
def Page.update (p : Page) (slot_number value : Nat) : Option (Bool × Page) :=
  if slot_number < p.num_records then
    if value < 2 ^ 64 then
      some (true, { p with
                     data := sliceSet p.data (8 + slot_number * 8) (toBytesLE 8 value),
                     dirty := true })
    else none
  else some (false, p)

/-- Well-formedness of a page as produced by the page operations: full
4096-byte slab, at most 511 populated slots, and every byte at or past
the end of the populated slots still zero (pages start zero-filled and
only `write`/`update`/`set_tps` touch bytes). -/
def Page.WFz (p : Page) : Prop :=
  p.data.length = PAGE_SIZE ∧ p.num_records ≤ RECORDS_PER_PAGE ∧
    ∀ i, 8 + p.num_records * 8 ≤ i → p.data.getD i 0 = 0

/-! ### Lock manager (`Project 3/lstore/lock_manager.py`) -/

inductive LockType where
  | shared
  | exclusive
deriving Repr, DecidableEq

structure Lock where
  lock_holders : Finset Nat
  exclusive_holder : Option Nat
deriving DecidableEq

/-- `Lock.acquire`: returns the success flag and the resulting lock
state (the source mutates in place). -/
def Lock.acquire (l : Lock) (transaction_id : Nat) (lock_type : LockType) :
    Bool × Lock :=
  if transaction_id ∈ l.lock_holders then
    match lock_type with
    | .exclusive =>
      if l.lock_holders.card = 1 ∧ l.exclusive_holder = none then
        (true, { l with lock_holders := l.lock_holders.erase transaction_id,
                        exclusive_holder := some transaction_id })
      else (false, l)
    | .shared => (true, l)
  else if some transaction_id = l.exclusive_holder then (true, l)
  else
    match lock_type with
    | .shared =>
      if l.exclusive_holder = none then
        (true, { l with lock_holders := insert transaction_id l.lock_holders })
      else (false, l)
    | .exclusive =>
      if l.exclusive_holder = none ∧ l.lock_holders.card = 0 then
        (true, { l with exclusive_holder := some transaction_id })
      else (false, l)

/-! ### Column index (`Project 3/lstore/index.py`)

`IndexNode` objects with `prev`/`next` references are modelled as an
append-only arena of nodes addressed by position; `idx_map` maps a
column value to the arena position of its node. -/

structure IndexNode where
  value : Nat
  rids : Finset Nat
  next : Option Nat
  prev : Option Nat
deriving DecidableEq

instance : Inhabited IndexNode := ⟨{ value := 0, rids := ∅, next := none, prev := none }⟩

/-- One column's index: `(idx_map, head, tail, sorted_keys, dead_keys)`
plus the node arena. -/
structure ColIndex where
  nodes : List IndexNode
  idx_map : List (Nat × Nat)
  head : Option Nat
  tail : Option Nat
  sorted_keys : List Nat
  dead_keys : Finset Nat
deriving DecidableEq

/-- The index built by `Index.create_index` over an empty page
directory: no keys, no nodes. -/
def ColIndex.empty : ColIndex :=
  { nodes := [], idx_map := [], head := none, tail := none,
    sorted_keys := [], dead_keys := ∅ }

/-- `Index._binary_search(sorted_keys, value, dead_keys)` loop body;
`left`/`right` are the loop variables.  The loop shrinks `right - left`
on every iteration, so driving the recursion by that measure as
explicit fuel reproduces the source loop exactly: if the fuel runs out,
`left ≥ right` already holds and the loop would exit anyway. -/
def binSearchGo (sorted_keys : List Nat) (value : Nat) (dead : Finset Nat) :
    Nat → Nat → Nat → Nat
  | 0, left, _ => left
  | fuel + 1, left, right =>
    if left < right then
      let mid := (left + right) / 2
      let mid_val := sorted_keys.getD mid 0
      if mid_val ∈ dead then binSearchGo sorted_keys value dead fuel left mid
      else if mid_val < value then
        binSearchGo sorted_keys value dead fuel (mid + 1) right
      else binSearchGo sorted_keys value dead fuel left mid
    else left

/-- `Index._binary_search`. -/
def binSearch (sorted_keys : List Nat) (value : Nat) (dead : Finset Nat) : Nat :=
  binSearchGo sorted_keys value dead sorted_keys.length 0 sorted_keys.length

/-- `Index.insert` on one column's structure.  `none` models the
`KeyError` raised when a linked-list neighbour taken from `sorted_keys`
is a tombstoned key absent from `idx_map` (the source leaves
`sorted_keys` partially mutated at the raise point; the theorems below
only evaluate states in which that distinction is not observable). -/
def ColIndex.insertVal (ci : ColIndex) (value rid : Nat) : Option ColIndex :=
  let dead := ci.dead_keys.erase value
  match dictGet ci.idx_map value with
  | some nid =>
    let nd := ci.nodes.getD nid default
    some { ci with dead_keys := dead,
                   nodes := ci.nodes.set nid { nd with rids := insert rid nd.rids } }
  | none =>
    let nid := ci.nodes.length
    match ci.tail with
    | none =>
      some { nodes := ci.nodes ++ [{ value := value, rids := {rid}, next := none, prev := none }],
             idx_map := dictSet ci.idx_map value nid,
             head := some nid, tail := some nid,
             sorted_keys := ci.sorted_keys ++ [value],
             dead_keys := dead }
    | some tlid =>
      let tl := ci.nodes.getD tlid default
      if tl.value < value then
        some { nodes := (ci.nodes.set tlid { tl with next := some nid }) ++
                          [{ value := value, rids := {rid}, next := none, prev := some tlid }],
               idx_map := dictSet ci.idx_map value nid,
               head := ci.head, tail := some nid,
               sorted_keys := ci.sorted_keys ++ [value],
               dead_keys := dead }
      else
        let pos := binSearch ci.sorted_keys value dead
        let sk := insertAt pos value ci.sorted_keys
        if pos = 0 then
          match ci.head with
          | none => none
          | some hid =>
            let hd := ci.nodes.getD hid default
            some { nodes := (ci.nodes.set hid { hd with prev := some nid }) ++
                              [{ value := value, rids := {rid}, next := some hid, prev := none }],
                   idx_map := dictSet ci.idx_map value nid,
                   head := some nid, tail := ci.tail,
                   sorted_keys := sk, dead_keys := dead }
        else if pos = sk.length - 1 then
          some { nodes := (ci.nodes.set tlid { tl with next := some nid }) ++
                            [{ value := value, rids := {rid}, next := none, prev := some tlid }],
                 idx_map := dictSet ci.idx_map value nid,
                 head := ci.head, tail := some nid,
                 sorted_keys := sk, dead_keys := dead }
        else
          match dictGet ci.idx_map (sk.getD (pos - 1) 0),
                dictGet ci.idx_map (sk.getD (pos + 1) 0) with
          | some pid, some nnid =>
            let pn := ci.nodes.getD pid default
            let base := ci.nodes.set pid { pn with next := some nid }
            let nn := base.getD nnid default
            some { nodes := (base.set nnid { nn with prev := some nid }) ++
                              [{ value := value, rids := {rid}, next := some nnid, prev := some pid }],
                   idx_map := dictSet ci.idx_map value nid,
                   head := ci.head, tail := ci.tail,
                   sorted_keys := sk, dead_keys := dead }
          | _, _ => none

/-- `Index.delete` on one column's structure: drop the rid, and when the
node's rid set drains, tombstone the key and unlink the node. -/
def ColIndex.deleteVal (ci : ColIndex) (value rid : Nat) : ColIndex :=
  match dictGet ci.idx_map value with
  | none => ci
  | some nid =>
    let nd := ci.nodes.getD nid default
    let rids2 := nd.rids.erase rid
    let nodes1 := ci.nodes.set nid { nd with rids := rids2 }
    if rids2 ≠ ∅ then { ci with nodes := nodes1 }
    else
      let nodes2 :=
        match nd.prev with
        | some pid => nodes1.set pid { nodes1.getD pid default with next := nd.next }
        | none => nodes1
      let head2 := match nd.prev with | some _ => ci.head | none => nd.next
      let nodes3 :=
        match nd.next with
        | some sid => nodes2.set sid { nodes2.getD sid default with prev := nd.prev }
        | none => nodes2
      let tail2 := match nd.next with | some _ => ci.tail | none => nd.prev
      { nodes := nodes3, idx_map := dictErase ci.idx_map value,
        head := head2, tail := tail2,
        sorted_keys := ci.sorted_keys, dead_keys := insert value ci.dead_keys }

/-- First stretch of `Index.locate_range`'s explicit loop:
`low = 0, high = len(sorted_keys) - 1; while low < high: ...` (note the
`high = len - 1` start, unlike `_binary_search`).  Fuelled by the
decreasing measure `high - low`, exactly like `binSearchGo`. -/
def lrLoop (sorted_keys : List Nat) (lo : Nat) : Nat → Nat → Nat → Nat
  | 0, low, _ => low
  | fuel + 1, low, high =>
    if low < high then
      let mid := (low + high) / 2
      if sorted_keys.getD mid 0 < lo then lrLoop sorted_keys lo fuel (mid + 1) high
      else lrLoop sorted_keys lo fuel low mid
    else low

/-- `Index.locate_range`'s "find first alive node" loop, run over
`sorted_keys[low:]`.  `none` both when every candidate key exceeds `hi`
and on the (ill-formed) `KeyError` of an alive key missing from
`idx_map`; in the source the latter raises, which the query layer turns
into the same observable result (`False`). -/
def findStart (ci : ColIndex) (hi : Nat) : List Nat → Option Nat
  | [] => none
  | k :: rest =>
    if hi < k then none
    else if k ∈ ci.dead_keys then findStart ci hi rest
    else dictGet ci.idx_map k

/-- `Index.locate_range`'s linked-list walk
(`while cur_node and cur_node.value <= hi`).  The walk is fuelled; on
the acyclic lists built by the index operations a fuel of
`nodes.length + 1` is never exhausted, matching the source's unbounded
loop. -/
def collectFrom (nodes : List IndexNode) (hi : Nat) : Option Nat → Nat → Finset Nat
  | _, 0 => ∅
  | none, _ => ∅
  | some nid, fuel + 1 =>
    let nd := nodes.getD nid default
    if nd.value ≤ hi then nd.rids ∪ collectFrom nodes hi nd.next fuel else ∅

/-! ### Page ranges and the table (`Project 3/lstore/table.py`)

A `PageRange` groups per-column base and tail pages.  Since every slot
round-trips through `Page.write`/`Page.read` as an 8-byte little-endian
word, the per-column page arrays are modelled as one value list per
physical column (`base_cols`/`tail_cols`, each of length
`4 + num_columns`); a logical offset indexes into each list exactly as
`(offset // 511, offset % 511)` indexes the page stack in the source.
`tps` keeps the TPS header words of the base pages of the `RID` column,
the only pages whose TPS the merger reads and writes, keyed by page
index (fresh pages read as a zero-filled buffer, hence TPS 0). -/

structure PageRange where
  num_base_records : Nat
  num_tail_records : Nat
  base_cols : List (List Nat)
  tail_cols : List (List Nat)
  tps : List (Nat × Nat)
deriving DecidableEq

instance : Inhabited PageRange :=
  ⟨{ num_base_records := 0, num_tail_records := 0,
     base_cols := [], tail_cols := [], tps := [] }⟩

/-- `PageRange.has_capacity`. -/
def PageRange.has_capacity (pr : PageRange) : Bool :=
  pr.num_base_records < RECORDS_PER_PAGE * 16

/-- Append `value` to every column list (`for col_index, value in
enumerate(record_data): ... page.write(value)`). -/
def appendEach (cols : List (List Nat)) (record_data : List Nat) : List (List Nat) :=
  List.zipWith (fun col v => col ++ [v]) cols record_data

/-- Read the full row at `offset` (one `page.read` per column; a slot
never written reads as 0 from the zero-filled page). -/
def rowAt (cols : List (List Nat)) (offset : Nat) : List Nat :=
  cols.map (fun col => col.getD offset 0)

/-- `PageRange.write_base_record`: append and return the offset. -/
def PageRange.write_base_record (pr : PageRange) (record_data : List Nat) :
    PageRange × Nat :=
  ({ pr with base_cols := appendEach pr.base_cols record_data,
             num_base_records := pr.num_base_records + 1 },
   pr.num_base_records)

/-- `PageRange.read_base_record`. -/
def PageRange.read_base_record (pr : PageRange) (offset : Nat) : List Nat :=
  rowAt pr.base_cols offset

/-- `PageRange.update_base_column`: overwrite one physical column at
`offset`.  `Page.update` refuses slots outside the populated range, so
an out-of-range `offset` writes nothing, which `List.set` mirrors. -/
def PageRange.update_base_column (pr : PageRange) (offset col_index value : Nat) :
    PageRange :=
  { pr with base_cols :=
      pr.base_cols.set col_index ((pr.base_cols.getD col_index []).set offset value) }

/-- `PageRange.write_tail_record`. -/
def PageRange.write_tail_record (pr : PageRange) (record_data : List Nat) :
    PageRange × Nat :=
  ({ pr with tail_cols := appendEach pr.tail_cols record_data,
             num_tail_records := pr.num_tail_records + 1 },
   pr.num_tail_records)

/-- `PageRange.read_tail_record`. -/
def PageRange.read_tail_record (pr : PageRange) (offset : Nat) : List Nat :=
  rowAt pr.tail_cols offset

/-- TPS of base page `page_index` of a range. -/
def PageRange.tpsAt (pr : PageRange) (page_index : Nat) : Nat :=
  (dictGet pr.tps page_index).getD 0

/-- One entry of the rollback journal
(`Table.record_modification`). -/
inductive ModType where
  | ins
  | upd
  | del
deriving DecidableEq

structure Modification where
  txid : Option Nat
  rid : Nat
  ty : ModType
  old_data : Option (List Nat)
  new_data : Option (List Nat)
deriving DecidableEq

/-- A page directory entry `(range_index, is_tail, offset)`. -/
abbrev Loc := Nat × Bool × Nat

/-- The table state (`Table.__init__`).  The buffer pool is the
identity cache of the value-level pages and is not represented;
`current_page_range`/`current_tail_page_range` hold indices into
`page_ranges` instead of references. -/
structure Table where
  num_columns : Nat
  key : Nat
  page_directory : List (Nat × Loc)
  page_ranges : List PageRange
  current_page_range : Option Nat
  current_tail_page_range : Option Nat
  next_rid : Nat
  indices : List (Option ColIndex)
  rids_to_merge : List Nat
  updates_since_merge : Nat
  transaction_id : Option Nat
  transaction_modifications : List Modification
deriving DecidableEq

/-- A freshly constructed table with `create_index=True`:
`Index.__init__` runs `create_index(key)` over the still-empty page
directory, which yields the empty column index on the key column and
`None` elsewhere. -/
def Table.new (num_columns key : Nat) : Table :=
  { num_columns := num_columns, key := key,
    page_directory := [], page_ranges := [],
    current_page_range := none, current_tail_page_range := none,
    next_rid := 1,
    indices := (List.replicate num_columns (none : Option ColIndex)).set key
                 (some ColIndex.empty),
    rids_to_merge := [], updates_since_merge := 0,
    transaction_id := none, transaction_modifications := [] }

/-- An empty range for this table
(`PageRange.__init__`: `num_columns = table.total_columns`). -/
def Table.newPageRange (t : Table) : PageRange :=
  { num_base_records := 0, num_tail_records := 0,
    base_cols := List.replicate (4 + t.num_columns) [],
    tail_cols := List.replicate (4 + t.num_columns) [],
    tps := [] }

/-- `Table._get_or_create_page_range`: reuse the current base range if
it has capacity, otherwise append a fresh one and make it current.
Returns the range index. -/
def Table.get_or_create_page_range (t : Table) : Table × Nat :=
  let ok := match t.current_page_range with
    | some i => (t.page_ranges.getD i default).has_capacity
    | none => false
  if ok then (t, t.current_page_range.getD 0)
  else
    let i := t.page_ranges.length
    ({ t with page_ranges := t.page_ranges ++ [t.newPageRange],
              current_page_range := some i }, i)

/-- `Table.record_modification`. -/
def Table.record_modification (t : Table) (rid : Nat) (ty : ModType)
    (old_data new_data : Option (List Nat)) : Table :=
  { t with transaction_modifications :=
      t.transaction_modifications ++
        [{ txid := t.transaction_id, rid := rid, ty := ty,
           old_data := old_data, new_data := new_data }] }

/-- The body of `Table.read_record` after the directory lookup: fetch
the range and read the full row.  A directory entry pointing at a
missing range would raise `IndexError` in the source; it is modelled as
`none`, and the well-formedness predicate used by the theorems rules it
out. -/
def readLoc (ranges : List PageRange) : Loc → Option (List Nat)
  | (range_idx, is_tail, offset) =>
    match ranges.get? range_idx with
    | none => none
    | some pr =>
      let record_data :=
        if is_tail then pr.read_tail_record offset else pr.read_base_record offset
      if record_data.getD RID_COLUMN 0 = DELETED_RID then none else some record_data

/-- `Table.read_record`: page-directory lookup, full-row read, `None`
for tombstoned records. -/
def Table.read_record (t : Table) (rid : Nat) : Option (List Nat) :=
  match dictGet t.page_directory rid with
  | none => none
  | some loc => readLoc t.page_ranges loc

/-- `Table.get_latest_version`: base record, then at most one jump to
the tail pointed to by `INDIRECTION`.  Returns
`(user_columns, schema_encoding)`. -/
def Table.get_latest_version (t : Table) (rid : Nat) : Option (List Nat × Nat) :=
  match t.read_record rid with
  | none => none
  | some base_record =>
    let indirection_rid := base_record.getD INDIRECTION_COLUMN 0
    if indirection_rid = 0 then
      some (base_record.drop 4, base_record.getD SCHEMA_ENCODING_COLUMN 0)
    else
      match t.read_record indirection_rid with
      | none => some (base_record.drop 4, base_record.getD SCHEMA_ENCODING_COLUMN 0)
      | some tail_record =>
        some (tail_record.drop 4, tail_record.getD SCHEMA_ENCODING_COLUMN 0)

/-- The chain walk of `Table.get_version`
(`for _ in range(steps): ...`); returns the final `curr_tail_rid`, or
`none` when a read inside the loop fails. -/
def Table.versionWalk (t : Table) : Nat → Nat → Option Nat
  | curr, 0 => some curr
  | curr, steps + 1 =>
    if curr = 0 then some 0
    else
      match t.read_record curr with
      | none => none
      | some tail_record =>
        t.versionWalk (tail_record.getD INDIRECTION_COLUMN 0) steps

/-- `Table.get_version`: `0` means latest, `-n` walks `n` steps along
the indirection chain from the newest tail, falling back to the base
record when the chain runs out. -/
def Table.get_version (t : Table) (rid : Nat) (relative_version : Int) :
    Option (List Nat × Nat) :=
  match t.read_record rid with
  | none => none
  | some base_record =>
    if relative_version = 0 then t.get_latest_version rid
    else
      let tail_rid := base_record.getD INDIRECTION_COLUMN 0
      if tail_rid = 0 then
        some (base_record.drop 4, base_record.getD SCHEMA_ENCODING_COLUMN 0)
      else
        match t.versionWalk tail_rid relative_version.natAbs with
        | none => none
        | some curr =>
          if curr = 0 then
            some (base_record.drop 4, base_record.getD SCHEMA_ENCODING_COLUMN 0)
          else
            match t.read_record curr with
            | none => none
            | some version_record =>
              some (version_record.drop 4,
                    version_record.getD SCHEMA_ENCODING_COLUMN 0)

/-! ### Index operations that consult the table
(`Index.locate`, `Index.locate_range`, and the per-table wrappers). -/

/-- `Index.locate`: indexed lookup, or a full scan of the base records
in the page directory when the column has no index. -/
def Index.locate (t : Table) (column value : Nat) : Finset Nat :=
  match t.indices.getD column none with
  | some ci =>
    if value ∈ ci.dead_keys then ∅
    else
      match dictGet ci.idx_map value with
      | some nid => (ci.nodes.getD nid default).rids
      | none => ∅
  | none =>
    t.page_directory.foldl
      (fun result kv =>
        match kv with
        | (rid, (_, is_tail, _)) =>
          if is_tail then result
          else
            match t.get_latest_version rid with
            | some (latest_values, _) =>
              if latest_values ≠ [] ∧ latest_values.getD column 0 = value then
                insert rid result
              else result
            | none => result)
      ∅

/-- `Index.locate_range(lo, hi, column)`. -/
def Index.locate_range (t : Table) (lo hi column : Nat) : Finset Nat :=
  match t.indices.getD column none with
  | none =>
    t.page_directory.foldl
      (fun result kv =>
        match kv with
        | (rid, (_, is_tail, _)) =>
          if is_tail then result
          else
            match t.get_latest_version rid with
            | some (latest_values, _) =>
              if latest_values ≠ [] ∧ lo ≤ latest_values.getD column 0 ∧
                  latest_values.getD column 0 ≤ hi then
                insert rid result
              else result
            | none => result)
      ∅
  | some ci =>
    let sk := ci.sorted_keys
    let low := lrLoop sk lo (sk.length - 1) 0 (sk.length - 1)
    collectFrom ci.nodes hi (findStart ci hi (sk.drop low)) (ci.nodes.length + 1)

/-- `Index.insert` dispatch on one table column (no-op when the column
has no index; `none` propagates the `KeyError` of
`ColIndex.insertVal`). -/
def Table.indexInsert (t : Table) (column value rid : Nat) : Option Table :=
  match t.indices.getD column none with
  | none => some t
  | some ci =>
    match ci.insertVal value rid with
    | none => none
    | some ci2 => some { t with indices := t.indices.set column (some ci2) }

/-- `Index.delete` dispatch on one table column. -/
def Table.indexDelete (t : Table) (column value rid : Nat) : Table :=
  match t.indices.getD column none with
  | none => t
  | some ci => { t with indices := t.indices.set column (some (ci.deleteVal value rid)) }

/-- `Index.update`: delete the old value, insert the new one.  The
second component is `false` when the insert raised (`KeyError`); the
returned state then carries the completed delete, matching the state at
the raise point up to the partially spliced insert. -/
def Table.indexUpdate (t : Table) (column old_value new_value rid : Nat) :
    Table × Bool :=
  let t1 := t.indexDelete column old_value rid
  match t1.indexInsert column new_value rid with
  | some t2 => (t2, true)
  | none => (t1, false)

/-! ### Table mutations (`Project 3/lstore/table.py`) -/

/-- The index-insert loop at the end of `Table.insert`
(`for col_num in range(self.num_columns): ...`); `none` propagates a
`KeyError` out of `Index.insert`. -/
def Table.insertIndicesLoop (t : Table) (columns : List Nat) (rid : Nat) :
    List Nat → Option Table
  | [] => some t
  | col_num :: rest =>
    match t.indices.getD col_num none with
    | none => t.insertIndicesLoop columns rid rest
    | some _ =>
      match t.indexInsert col_num (columns.getD col_num 0) rid with
      | none => none
      | some t2 => t2.insertIndicesLoop columns rid rest

/-- `Table.insert`: arity check, duplicate-key check against the key
index, RID allocation, base-record append, page-directory entry, index
inserts, journal entry.  `none` in the second component covers the two
`ValueError` raises (state unchanged, they fire before any mutation)
and the index-loop `KeyError` (state mutated up to the loop). -/
def Table.insert (t : Table) (now : Nat) (columns : List Nat) :
    Table × Option Nat :=
  if columns.length ≠ t.num_columns then (t, none)
  else if Index.locate t t.key (columns.getD t.key 0) ≠ ∅ then (t, none)
  else
    let rid := t.next_rid
    let t1 := { t with next_rid := rid + 1 }
    let full_record := [0, rid, now, 0] ++ columns
    let got := t1.get_or_create_page_range
    let t2 := got.1
    let range_idx := got.2
    let pr := t2.page_ranges.getD range_idx default
    let wr := pr.write_base_record full_record
    let pr2 := wr.1
    let offset := wr.2
    let t3 := { t2 with page_ranges := t2.page_ranges.set range_idx pr2 }
    let t4 := { t3 with page_directory :=
                  dictSet t3.page_directory rid (range_idx, false, offset) }
    match t4.insertIndicesLoop columns rid (List.range t4.num_columns) with
    | none => (t4, none)
    | some t5 => (t5.record_modification rid .ins none (some full_record), some rid)

/-- Overwrite one physical column of the base record at
`(range_idx, offset)`. -/
def Table.updateBaseCol (t : Table) (range_idx offset col_index value : Nat) :
    Table :=
  { t with page_ranges := (t.page_ranges.set range_idx
      ((t.page_ranges.getD range_idx default).update_base_column offset col_index value)) }

/-- New schema encoding of `Table.update_record`
(`for i, value in enumerate(columns): if value is not None:
new_schema |= (1 << i)`). -/
def newSchemaOf (current_schema : Nat) (columns : List (Option Nat)) : Nat :=
  (columns.enum).foldl
    (fun acc cv => match cv.2 with
      | some _ => acc ||| (1 <<< cv.1)
      | none => acc)
    current_schema

/-- Merged user columns of the tail record: supplied values where
non-`None`, latest values otherwise. -/
def mergedUserCols (columns : List (Option Nat)) (latest_values : List Nat)
    (num_columns : Nat) : List Nat :=
  (List.range num_columns).map
    (fun i => (columns.getD i none).getD (latest_values.getD i 0))

/-- The index-update loop of `Table.update_record` over
`updated_columns_info = [(col, old, new), ...]`; a `KeyError` inside
`Index.update` stops the loop with the flag `false` (the raise
propagates to the query layer). -/
def Table.updIdxLoop (t : Table) (rid : Nat) :
    List (Nat × Nat × Nat) → Table × Bool
  | [] => (t, true)
  | (col_num, old_value, new_value) :: rest =>
    match t.indices.getD col_num none with
    | none => t.updIdxLoop rid rest
    | some _ =>
      let r := t.indexUpdate col_num old_value new_value rid
      if r.2 then r.1.updIdxLoop rid rest else (r.1, false)

/-- The tail-range selection block of `Table.update_record`
(`with self.page_ranges_lock: if self.current_tail_page_range is None
or ... : self.current_tail_page_range = self._get_or_create_page_range()`).
Returns the updated table and the chosen range index. -/
def Table.pick_tail_range (t : Table) : Table × Nat :=
  let need_new :=
    match t.current_tail_page_range with
    | none => true
    | some i =>
      decide (RECORDS_PER_PAGE * 16 ≤ (t.page_ranges.getD i default).num_tail_records)
  if need_new then
    let got := t.get_or_create_page_range
    ({ got.1 with current_tail_page_range := some got.2 }, got.2)
  else (t, t.current_tail_page_range.getD 0)

/-- `Table.update_record`.  Result flag: `some true` on success,
`some false` when the record is missing, `none` when an uncaught
exception fires (failed `assert not is_tail`, or a `KeyError` in the
index loop); the returned table is the state at that point. -/
def Table.update_record (t : Table) (now rid : Nat) (columns : List (Option Nat)) :
    Table × Option Bool :=
  match t.read_record rid with
  | none => (t, some false)
  | some base_record =>
    let t1 := t.record_modification rid .upd (some base_record) none
    match t1.get_latest_version rid with
    | none => (t1, none)
    | some (latest_values, current_schema) =>
      let tail_rid := t1.next_rid
      let t2 := { t1 with next_rid := tail_rid + 1 }
      let prev_tail_rid := base_record.getD INDIRECTION_COLUMN 0
      let new_schema := newSchemaOf current_schema columns
      let updated_columns_info :=
        (columns.enum).foldr
          (fun cv acc => match cv.2 with
            | some v => (cv.1, latest_values.getD cv.1 0, v) :: acc
            | none => acc)
          []
      let tail_data := [prev_tail_rid, tail_rid, now, new_schema] ++
        mergedUserCols columns latest_values t2.num_columns
      let picked := t2.pick_tail_range
      let t3 := picked.1
      let tail_range_idx := picked.2
      let pr := t3.page_ranges.getD tail_range_idx default
      let wr := pr.write_tail_record tail_data
      let pr2 := wr.1
      let offset := wr.2
      let t4 := { t3 with page_ranges := t3.page_ranges.set tail_range_idx pr2 }
      let t5 := { t4 with page_directory :=
                    dictSet t4.page_directory tail_rid (tail_range_idx, true, offset) }
      match dictGet t5.page_directory rid with
      | none => (t5, none)
      | some (base_range_idx, is_tail, base_offset) =>
        if is_tail then (t5, none)
        else
          let t6 := (t5.updateBaseCol base_range_idx base_offset
                        INDIRECTION_COLUMN tail_rid).updateBaseCol
                      base_range_idx base_offset SCHEMA_ENCODING_COLUMN new_schema
          let ur := t6.updIdxLoop rid updated_columns_info
          if ur.2 then
            let t8 :=
              if rid ∈ ur.1.rids_to_merge then ur.1
              else { ur.1 with rids_to_merge := ur.1.rids_to_merge ++ [rid] }
            ({ t8 with updates_since_merge := t8.updates_since_merge + 1 }, some true)
          else (ur.1, none)

/-- The index-delete loop of `Table.delete_record` (`Index.delete`
never raises, so the loop is total). -/
def Table.delIdxLoop (t : Table) (latest_values : List Nat) (rid : Nat) :
    List Nat → Table
  | [] => t
  | col_num :: rest =>
    match t.indices.getD col_num none with
    | none => t.delIdxLoop latest_values rid rest
    | some _ =>
      (t.indexDelete col_num (latest_values.getD col_num 0) rid).delIdxLoop
        latest_values rid rest

/-- `Table.delete_record`: tombstone the base record (`RID` column set
to `DELETED_RID`) and drop its latest values from every index. -/
def Table.delete_record (t : Table) (rid : Nat) : Table × Bool :=
  match dictGet t.page_directory rid with
  | none => (t, false)
  | some (range_idx, is_tail, offset) =>
    match t.read_record rid with
    | none => (t, false)
    | some base_record =>
      let t1 := t.record_modification rid .del (some base_record) none
      if is_tail then (t1, false)
      else
        match t1.get_latest_version rid with
        | none => (t1, false)
        | some (latest_values, _) =>
          let t2 := t1.updateBaseCol range_idx offset RID_COLUMN DELETED_RID
          (t2.delIdxLoop latest_values rid (List.range t2.num_columns), true)

/-! ### Rollback (`Table.rollback_modifications`) -/

/-- Index removal loop of the `insert` rollback branch (inside its
`try`; `Index.delete` does not raise). -/
def Table.rbInsIdxLoop (t : Table) (latest_values : List Nat) (rid : Nat) :
    List Nat → Table
  | [] => t
  | col_num :: rest =>
    match t.indices.getD col_num none with
    | none => t.rbInsIdxLoop latest_values rid rest
    | some _ =>
      (t.indexDelete col_num (latest_values.getD col_num 0) rid).rbInsIdxLoop
        latest_values rid rest

/-- Index inversion loop of the `update` rollback branch: for each
indexed column whose journaled base value differs from the current
latest value, `Index.update(col, current, old, rid)`.  An exception
stops the loop (caught by the surrounding `except`). -/
def Table.rbUpdIdxLoop (t : Table) (old_user current_values : List Nat) (rid : Nat) :
    List Nat → Table
  | [] => t
  | col_num :: rest =>
    match t.indices.getD col_num none with
    | none => t.rbUpdIdxLoop old_user current_values rid rest
    | some _ =>
      let old_value := old_user.getD col_num 0
      let new_value := current_values.getD col_num 0
      if old_value ≠ new_value then
        let r := t.indexUpdate col_num new_value old_value rid
        if r.2 then r.1.rbUpdIdxLoop old_user current_values rid rest else r.1
      else t.rbUpdIdxLoop old_user current_values rid rest

/-- Index re-insertion loop of the `delete` rollback branch; an
exception (`KeyError` in `Index.insert`) stops the loop. -/
def Table.rbDelIdxLoop (t : Table) (user_columns : List Nat) (rid : Nat) :
    List Nat → Table
  | [] => t
  | col_num :: rest =>
    match t.indices.getD col_num none with
    | none => t.rbDelIdxLoop user_columns rid rest
    | some _ =>
      match t.indexInsert col_num (user_columns.getD col_num 0) rid with
      | none => t
      | some t2 => t2.rbDelIdxLoop user_columns rid rest

/-- Restore loop of the `update` rollback branch
(`for col_idx in range(4, len(old_data)):
update_base_column(offset, col_idx, old_data[col_idx])`). -/
def Table.rbRestoreCols (t : Table) (range_idx offset : Nat) (old_data : List Nat) :
    List Nat → Table
  | [] => t
  | col_idx :: rest =>
    (t.updateBaseCol range_idx offset col_idx (old_data.getD col_idx 0)).rbRestoreCols
      range_idx offset old_data rest

/-- Undo a single journaled modification (one iteration of the
`for mod in reversed(modifications)` loop; each branch's internal
`try`/`except` swallows exceptions, so the step is total). -/
def Table.rollback_one (t : Table) (m : Modification) : Table :=
  match m.ty with
  | .ins =>
    match dictGet t.page_directory m.rid with
    | none => t
    | some (range_idx, _, offset) =>
      let t1 := t.updateBaseCol range_idx offset RID_COLUMN DELETED_RID
      let t2 :=
        match t1.get_latest_version m.rid with
        | none => t1
        | some (latest_values, _) =>
          if latest_values ≠ [] then
            t1.rbInsIdxLoop latest_values m.rid (List.range t1.num_columns)
          else t1
      { t2 with page_directory := dictErase t2.page_directory m.rid }
  | .upd =>
    match m.old_data with
    | none => t
    | some old_data =>
      if old_data = [] then t
      else
        match dictGet t.page_directory m.rid with
        | none => t
        | some (range_idx, _, offset) =>
          let t1 := t.rbRestoreCols range_idx offset old_data
                      (List.range' 4 (old_data.length - 4))
          let t2 := t1.updateBaseCol range_idx offset INDIRECTION_COLUMN
                      (old_data.getD INDIRECTION_COLUMN 0)
          let t3 := t2.updateBaseCol range_idx offset SCHEMA_ENCODING_COLUMN
                      (old_data.getD SCHEMA_ENCODING_COLUMN 0)
          match t3.get_latest_version m.rid with
          | none => t3
          | some (current_values, _) =>
            if current_values ≠ [] ∧ 4 < old_data.length then
              t3.rbUpdIdxLoop (old_data.drop 4) current_values m.rid
                (List.range t3.num_columns)
            else t3
  | .del =>
    match dictGet t.page_directory m.rid with
    | none => t
    | some (range_idx, is_tail, offset) =>
      if is_tail then t
      else
        match m.old_data with
        | none => t
        | some old_data =>
          let t1 := t.updateBaseCol range_idx offset RID_COLUMN
                      (old_data.getD RID_COLUMN 0)
          if old_data ≠ [] ∧ 4 < old_data.length then
            t1.rbDelIdxLoop (old_data.drop 4) m.rid (List.range t1.num_columns)
          else t1

/-- `Table.rollback_modifications`: peel this transaction's journal
entries off and replay them in reverse. -/
def Table.rollback_modifications (t : Table) : Table :=
  let current := t.transaction_id
  let modifications := t.transaction_modifications.filter (fun m => m.txid = current)
  let t1 := { t with transaction_modifications :=
                t.transaction_modifications.filter (fun m => m.txid ≠ current) }
  modifications.reverse.foldl Table.rollback_one t1

/-- The table-facing effect of `Transaction.abort` for a single-table
transaction: roll the journal back, then clear the transaction context
on the table (lock release concerns only the unmodelled lock table). -/
def Transaction.abort (t : Table) : Table :=
  { t.rollback_modifications with transaction_id := none }

/-! ### Merge (`Table.__merge` / `Table.merge`) -/

/-- Group the drained dirty RIDs by base page range, keeping the
directory data `(rid, offset)` and skipping tail/missing RIDs
(`rids_by_range` in the source; insertion-ordered like a Python dict).
The source iterates a `set`, whose order is unspecified; the model uses
the journal order of `rids_to_merge`, one admissible linearization. -/
def groupAdd (groups : List (Nat × List (Nat × Nat))) (k : Nat) (v : Nat × Nat) :
    List (Nat × List (Nat × Nat)) :=
  match groups with
  | [] => [(k, [v])]
  | (k0, l0) :: rest =>
    if k0 = k then (k0, l0 ++ [v]) :: rest else (k0, l0) :: groupAdd rest k v

def Table.buildGroups (t : Table) (rids : List Nat) :
    List (Nat × List (Nat × Nat)) :=
  rids.foldl
    (fun groups rid =>
      match dictGet t.page_directory rid with
      | none => groups
      | some (range_idx, is_tail, offset) =>
        if is_tail then groups else groupAdd groups range_idx (rid, offset))
    []

/-- Body of the per-RID merge loop: read the base record, skip deleted
records and empty chains, skip chains already covered by the page's
TPS, compute the latest version through the normal table API, and raise
the TPS of the base page to the merged tail RID when it is larger.  The
base record's user columns are intentionally not touched. -/
def Table.mergeRid (t : Table) (range_idx rid offset : Nat) : Table :=
  let pr := t.page_ranges.getD range_idx default
  let page_index := offset / RECORDS_PER_PAGE
  let base_record := pr.read_base_record offset
  if base_record.isEmpty then t
  else
    let base_rid := base_record.getD RID_COLUMN 0
    let tail_rid := base_record.getD INDIRECTION_COLUMN 0
    if base_rid = DELETED_RID then t
    else if tail_rid = 0 then t
    else if tail_rid ≤ pr.tpsAt page_index then t
    else
      match t.get_latest_version rid with
      | none => t
      | some _ =>
        let pr2 := t.page_ranges.getD range_idx default
        if pr2.tpsAt page_index < tail_rid then
          { t with page_ranges := (t.page_ranges.set range_idx
              { pr2 with tps := dictSet pr2.tps page_index tail_rid }) }
        else t

/-- `Table.__merge`: drain the dirty-RID set, group by range, process
each record.  Sequentially the non-blocking range-lock acquisition
always succeeds, so the requeue path does not arise. -/
def Table.mergePass (t : Table) : Table :=
  let rids_to_merge := t.rids_to_merge
  let t1 := { t with rids_to_merge := [] }
  if rids_to_merge.isEmpty then t1
  else
    let n_ranges := t1.page_ranges.length
    let groups := t1.buildGroups rids_to_merge
    groups.foldl
      (fun acc g =>
        if n_ranges ≤ g.1 then acc
        else g.2.foldl (fun acc2 ro => acc2.mergeRid g.1 ro.1 ro.2) acc)
      t1

/-- `Table.merge` (the `_merge_in_progress` lock always free
sequentially): run the pass and reset the update counter. -/
def Table.merge (t : Table) : Table :=
  { t.mergePass with updates_since_merge := 0 }

/-! ### Query surface (`Project 3/lstore/query.py`)

Standalone queries on a table whose `lock_manager` is `None` (the
initial state): `_acquire_locks` then returns `True` immediately and
the 2PL bracketing has no effect on the state. -/

/-- `Query.insert`: `True` on success; every raise out of
`Table.insert` is caught and mapped to `False`. -/
def Query.insert (t : Table) (now : Nat) (columns : List Nat) : Bool × Table :=
  let r := Table.insert t now columns
  (r.2.isSome, r.1)

/-- `Query.sum(start_range, end_range, aggregate_column_index)`:
`none` models the `False` returned for an empty RID set, `some n` the
integer total of the latest aggregate-column values (records whose
latest version is unavailable contribute nothing). -/
def Query.sum (t : Table) (start_range end_range aggregate_column_index : Nat) :
    Option Nat :=
  let rids := Index.locate_range t start_range end_range t.key
  if rids = ∅ then none
  else
    some (rids.sum (fun rid =>
      match t.get_latest_version rid with
      | none => 0
      | some (values, _) => values.getD aggregate_column_index 0))

/-! ### Well-formedness and observation functions used by the theorems -/

/-- Well-formedness of one page range relative to a table: the column
arrays cover the four metadata columns plus the user columns, and every
column holds exactly the appended records. -/
def Table.RangeWF (t : Table) (pr : PageRange) : Prop :=
  pr.base_cols.length = 4 + t.num_columns ∧
  pr.tail_cols.length = 4 + t.num_columns ∧
  (∀ c ∈ pr.base_cols, c.length = pr.num_base_records) ∧
  (∀ c ∈ pr.tail_cols, c.length = pr.num_tail_records)

/-- An optional range index that, when present, points into the range
roster. -/
def optIdxOK (o : Option Nat) (n : Nat) : Bool :=
  match o with
  | none => true
  | some i => i < n

/-- Well-formedness of a table state: the key column exists, RIDs start
at 1, the ranges are populated consistently, every page-directory entry
points at an existing slot of an existing range with a RID below the
allocation counter, and the current-range hints are in range. -/
def Table.WF (t : Table) : Prop :=
  t.key < t.num_columns ∧ 1 ≤ t.next_rid ∧
  (∀ pr ∈ t.page_ranges, t.RangeWF pr) ∧
  (∀ kv ∈ t.page_directory, kv.1 ≠ 0 ∧ kv.1 < t.next_rid ∧
     kv.2.1 < t.page_ranges.length ∧
     (kv.2.2.1 = true →
        kv.2.2.2 < (t.page_ranges.getD kv.2.1 default).num_tail_records) ∧
     (kv.2.2.1 = false →
        kv.2.2.2 < (t.page_ranges.getD kv.2.1 default).num_base_records)) ∧
  optIdxOK t.current_page_range t.page_ranges.length = true ∧
  optIdxOK t.current_tail_page_range t.page_ranges.length = true

instance (t : Table) (pr : PageRange) : Decidable (t.RangeWF pr) := by
  unfold Table.RangeWF
  infer_instance

instance (t : Table) : Decidable t.WF := by
  unfold Table.WF
  infer_instance

/-- Everything of a page range except the TPS header words. -/
def PageRange.storeView (pr : PageRange) :
    Nat × Nat × List (List Nat) × List (List Nat) :=
  (pr.num_base_records, pr.num_tail_records, pr.base_cols, pr.tail_cols)

/-- Everything `read_record` (and hence every version lookup) can
observe, plus the indexes: record reads never consult TPS. -/
def Table.View (t : Table) :
    List (Nat × Loc) × List (Nat × Nat × List (List Nat) × List (List Nat)) ×
      List (Option ColIndex) × Nat × Nat :=
  (t.page_directory, t.page_ranges.map PageRange.storeView, t.indices,
   t.num_columns, t.key)

/-- TPS header word of base page `page_index` of range `range_idx`. -/
def Table.tpsOf (t : Table) (range_idx page_index : Nat) : Nat :=
  (t.page_ranges.getD range_idx default).tpsAt page_index

/-- Tail RIDs on the indirection chain starting at `start`, fuelled;
on the acyclic chains of well-formed tables the fuel used below is
never exhausted. -/
def Table.chainRids (t : Table) : Nat → Nat → List Nat
  | _, 0 => []
  | start, fuel + 1 =>
    if start = 0 then []
    else
      match t.read_record start with
      | none => [start]
      | some rec => start :: t.chainRids (rec.getD INDIRECTION_COLUMN 0) fuel

/-- All tail RIDs reachable from a live base record stored on base page
`page_index` of range `range_idx`. -/
def Table.reachableTailsOnPage (t : Table) (range_idx page_index : Nat) :
    List Nat :=
  match t.page_ranges.get? range_idx with
  | none => []
  | some pr =>
    ((List.range pr.num_base_records).filter
        (fun off => off / RECORDS_PER_PAGE = page_index)).foldr
      (fun off acc =>
        (let base := pr.read_base_record off
         if base.getD RID_COLUMN 0 ≠ 0 then
           t.chainRids (base.getD INDIRECTION_COLUMN 0) (t.page_directory.length + 1)
         else []) ++ acc)
      []

/-- The largest tail RID reachable from any base record on the page. -/
def Table.maxReachableTail (t : Table) (range_idx page_index : Nat) : Nat :=
  (t.reachableTailsOnPage range_idx page_index).foldr max 0

/-- Every grouped `(rid, offset)` pair produced by `buildGroups` comes
from a base entry of the page directory in its group's range. -/
def GroupsOK (t : Table) (groups : List (Nat × List (Nat × Nat))) : Prop :=
  ∀ g ∈ groups, ∀ ro ∈ g.2, dictGet t.page_directory ro.1 = some (g.1, false, ro.2)

/-- Invariant carried through a merge pass: the record-visible state
still equals the starting table's, and every TPS word is either
untouched or was raised to a tail RID reachable on its page. -/
def TpsStep (t0 acc : Table) : Prop :=
  acc.View = t0.View ∧
  ∀ rp pp, acc.tpsOf rp pp = t0.tpsOf rp pp ∨
    (t0.tpsOf rp pp < acc.tpsOf rp pp ∧
     acc.tpsOf rp pp ∈ t0.reachableTailsOnPage rp pp)

/-- Head RID of an indirection chain given as an explicit list
(`0` when the chain is empty, i.e. the chain terminator). -/
def headRid : List (Nat × List Nat) → Nat
  | [] => 0
  | (r, _) :: _ => r

/-- The explicit indirection chain `[(rid, record), ...]`, newest tail
first: every entry is readable, nonzero, and links to the next entry
(the last entry links to `0`). -/
def Table.chainLinked (t : Table) : List (Nat × List Nat) → Bool
  | [] => true
  | (r, rec) :: rest =>
    r ≠ 0 && t.read_record r = some rec &&
      rec.getD INDIRECTION_COLUMN 0 = headRid rest && t.chainLinked rest

/-- `chain` is the full tail chain of base record `rid` whose base
image is `base`. -/
def Table.IsChain (t : Table) (rid : Nat) (base : List Nat)
    (chain : List (Nat × List Nat)) : Prop :=
  t.read_record rid = some base ∧
  base.getD INDIRECTION_COLUMN 0 = headRid chain ∧
  t.chainLinked chain = true

/-! ### Concrete states used by counterexamples and witnesses -/

/-- S1 of the specification: `T(key=0, 3 cols)`, `insert(1,10,100)`. -/
def tableS1 : Table := ((Table.new 3 0).insert 0 [1, 10, 100]).1

/-- S1 followed by `update(1, None, 20, None)`. -/
def tableS2 : Table := (tableS1.update_record 0 1 [none, some 20, none]).1

/-- ... followed by `update(1, None, None, 30)`: RID 1 now has the tail
chain `[3, 2]`. -/
def tableS2b : Table := (tableS2.update_record 0 1 [none, none, some 30]).1

/-- The tail chain of RID 1 in `tableS2b`, newest first. -/
def chainS2b : List (Nat × List Nat) :=
  [(3, [2, 3, 0, 6, 1, 20, 30]), (2, [0, 2, 0, 2, 1, 20, 100])]

/-- S3 of the specification: keys 1, 2, 3 with aggregate column values
100, 200, 300. -/
def tableS3 : Table :=
  ((((Table.new 3 0).insert 0 [1, 10, 100]).1.insert 0 [2, 10, 200]).1.insert 0
    [3, 10, 300]).1

/-- Keys 1, 5, 7 inserted, then the record with key 5 deleted: the key
index now carries the tombstoned key 5 in `sorted_keys`. -/
def tableDeadKey : Table :=
  (((((Table.new 3 0).insert 0 [1, 10, 100]).1.insert 0 [5, 50, 500]).1.insert 0
      [7, 70, 700]).1.delete_record 2).1

/-- A fresh table inside transaction 1 (the transaction runner stamps
its id on the table before executing queries). -/
def tableTx : Table := { Table.new 3 0 with transaction_id := some 1 }

/-- ... after the transaction inserted key 9. -/
def tableTxIns : Table := (tableTx.insert 0 [9, 10, 100]).1

/-- ... after the transaction aborted. -/
def tableTxAborted : Table := Transaction.abort tableTxIns

/-- A full page (511 slots appended). -/
def fullPage : Page := { Page.new with num_records := RECORDS_PER_PAGE }

/-- The conjuncts the insert/update proofs need about the table and
range index returned by `_get_or_create_page_range`. -/
def GotSpec (t t2 : Table) (idx : Nat) : Prop :=
  t2.page_directory = t.page_directory ∧
  t2.num_columns = t.num_columns ∧
  t2.next_rid = t.next_rid ∧
  t2.indices = t.indices ∧
  t2.key = t.key ∧
  idx < t2.page_ranges.length ∧
  t.page_ranges.length ≤ t2.page_ranges.length ∧
  (∀ j, j < t.page_ranges.length →
     t2.page_ranges.getD j default = t.page_ranges.getD j default) ∧
  (∀ j, j ≠ idx →
     t2.page_ranges.getD j default = t.page_ranges.getD j default) ∧
  (t2.page_ranges.getD idx default).base_cols.length = 4 + t.num_columns ∧
  (∀ c ∈ (t2.page_ranges.getD idx default).base_cols,
     c.length = (t2.page_ranges.getD idx default).num_base_records) ∧
  (t2.page_ranges.getD idx default).tail_cols.length = 4 + t.num_columns ∧
  (∀ c ∈ (t2.page_ranges.getD idx default).tail_cols,
     c.length = (t2.page_ranges.getD idx default).num_tail_records) ∧
  (t2.page_ranges.getD idx default).num_base_records =
    (t.page_ranges.getD idx default).num_base_records ∧
  (t2.page_ranges.getD idx default).num_tail_records =
    (t.page_ranges.getD idx default).num_tail_records


/-- Structural health of one column index: a non-empty list has a head,
and every key in `sorted_keys` is mapped in `idx_map` (no tombstoned
stragglers).  `Index.insert` cannot raise `KeyError` on such an
index. -/
def IdxOK (ci : ColIndex) : Prop :=
  (ci.tail.isSome = true → ci.head.isSome = true) ∧
  ∀ k ∈ ci.sorted_keys, (dictGet ci.idx_map k).isSome = true

instance (ci : ColIndex) : Decidable (IdxOK ci) := by
  unfold IdxOK
  infer_instance

/-- `IdxOK` lifted over the optional per-column index slots. -/
def IdxOKopt : Option ColIndex → Prop
  | none => True
  | some ci => IdxOK ci

instance : (o : Option ColIndex) → Decidable (IdxOKopt o)
  | none => isTrue trivial
  | some ci => (inferInstance : Decidable (IdxOK ci))


/-! ## Theorems

### General lemmas about the list and dictionary primitives -/

theorem getD_append {α : Type} (xs ys : List α) (d : α) :
    ∀ i, (xs ++ ys).getD i d =
      if i < xs.length then xs.getD i d else ys.getD (i - xs.length) d := by
  induction xs with
  | nil => intro i; simp
  | cons a tl ih =>
    intro i
    cases i with
    | zero => simp
    | succ j =>
      simp only [List.cons_append, List.getD_cons_succ, ih j, List.length_cons]
      by_cases h : j < tl.length
      · rw [if_pos h, if_pos (by omega)]
      · rw [if_neg h, if_neg (by omega)]
        congr 1
        omega

theorem getD_drop {α : Type} (d : α) :
    ∀ (k : Nat) (l : List α) (j : Nat), (l.drop k).getD j d = l.getD (k + j) d := by
  intro k
  induction k with
  | zero => intro l j; simp
  | succ n ih =>
    intro l j
    cases l with
    | nil => simp
    | cons a tl =>
      rw [List.drop_succ_cons, ih tl j]
      have : n + 1 + j = (n + j) + 1 := by omega
      rw [this, List.getD_cons_succ]

theorem getD_take {α : Type} (d : α) :
    ∀ (k : Nat) (l : List α) (i : Nat), i < k → (l.take k).getD i d = l.getD i d := by
  intro k
  induction k with
  | zero => intro l i hi; omega
  | succ n ih =>
    intro l i hi
    cases l with
    | nil => simp
    | cons a tl =>
      cases i with
      | zero => simp
      | succ j =>
        rw [List.take_succ_cons, List.getD_cons_succ, List.getD_cons_succ]
        exact ih tl j (by omega)

theorem getD_set_self {α : Type} (d a : α) :
    ∀ (l : List α) (i : Nat), i < l.length → (l.set i a).getD i d = a := by
  intro l
  induction l with
  | nil => intro i hi; simp at hi
  | cons b tl ih =>
    intro i hi
    cases i with
    | zero => simp
    | succ j => simpa using ih j (by simpa using hi)

theorem getD_set_ne {α : Type} (d a : α) :
    ∀ (l : List α) (i j : Nat), i ≠ j → (l.set i a).getD j d = l.getD j d := by
  intro l
  induction l with
  | nil => intro i j _; simp
  | cons b tl ih =>
    intro i j hij
    cases i with
    | zero =>
      cases j with
      | zero => omega
      | succ j2 => simp
    | succ i2 =>
      cases j with
      | zero => simp
      | succ j2 => simpa using ih i2 j2 (by omega)

theorem set_getD_self {α : Type} (d : α) :
    ∀ (l : List α) (i : Nat), l.set i (l.getD i d) = l := by
  intro l
  induction l with
  | nil => intro i; simp
  | cons b tl ih =>
    intro i
    cases i with
    | zero => simp
    | succ j => simpa using ih j

theorem map_set' {α β : Type} (f : α → β) :
    ∀ (l : List α) (i : Nat) (a : α), (l.set i a).map f = (l.map f).set i (f a) := by
  intro l
  induction l with
  | nil => intro i a; simp
  | cons b tl ih =>
    intro i a
    cases i with
    | zero => simp
    | succ j => simpa using ih j a

theorem getD_map' {α β : Type} (f : α → β) (d : α) :
    ∀ (l : List α) (i : Nat), (l.map f).getD i (f d) = f (l.getD i d) := by
  intro l
  induction l with
  | nil => intro i; simp
  | cons b tl ih =>
    intro i
    cases i with
    | zero => simp
    | succ j => simpa using ih j

theorem getD_mem {α : Type} (d : α) :
    ∀ (l : List α) (i : Nat), i < l.length → l.getD i d ∈ l := by
  intro l
  induction l with
  | nil => intro i hi; simp at hi
  | cons b tl ih =>
    intro i hi
    cases i with
    | zero => simp
    | succ j =>
      rw [List.getD_cons_succ]
      exact List.mem_cons_of_mem b (ih j (by simpa using hi))

theorem get?_eq_some_getD {α : Type} (d : α) :
    ∀ (l : List α) (i : Nat), i < l.length → l.get? i = some (l.getD i d) := by
  intro l
  induction l with
  | nil => intro i hi; simp at hi
  | cons b tl ih =>
    intro i hi
    cases i with
    | zero => simp
    | succ j => simpa using ih j (by simpa using hi)

theorem getD_replicate_self {α : Type} (a : α) :
    ∀ (n i : Nat), (List.replicate n a).getD i a = a := by
  intro n
  induction n with
  | zero => intro i; simp
  | succ m ih =>
    intro i
    cases i with
    | zero => simp [List.replicate_succ]
    | succ j => simpa [List.replicate_succ] using ih j

theorem toBytesLE_length : ∀ (n v : Nat), (toBytesLE n v).length = n := by
  intro n
  induction n with
  | zero => intro v; rfl
  | succ m ih => intro v; simp [toBytesLE, ih]

theorem length_sliceSet (l r : List Nat) (o : Nat) (h : o + r.length ≤ l.length) :
    (sliceSet l o r).length = l.length := by
  simp only [sliceSet, List.length_append, List.length_take, List.length_drop]
  omega

theorem sliceSet_getD_high (l r : List Nat) (o i d : Nat)
    (ho : o ≤ l.length) (hi : o + r.length ≤ i) :
    (sliceSet l o r).getD i d = l.getD i d := by
  unfold sliceSet
  rw [getD_append]
  have hlen : (l.take o ++ r).length = o + r.length := by
    rw [List.length_append, List.length_take]; omega
  rw [hlen, if_neg (by omega), getD_drop]
  congr 1
  omega

theorem fromBytesLE_eq_zero :
    ∀ bs : List Nat, (∀ b ∈ bs, b = 0) → fromBytesLE bs = 0 := by
  intro bs
  induction bs with
  | nil => intro _; rfl
  | cons b tl ih =>
    intro h
    have hb : b = 0 := h b (List.mem_cons_self b tl)
    have ht : fromBytesLE tl = 0 := ih (fun x hx => h x (List.mem_cons_of_mem b hx))
    simp [fromBytesLE, hb, ht]

theorem drop_all_zero :
    ∀ (l : List Nat) (o : Nat), (∀ i, o ≤ i → l.getD i 0 = 0) →
      ∀ b ∈ l.drop o, b = 0 := by
  intro l
  induction l with
  | nil => intro o _ b hb; simp at hb
  | cons a tl ih =>
    intro o h b hb
    cases o with
    | zero =>
      rw [List.drop_zero] at hb
      rcases List.mem_cons.mp hb with hb | hb
      · subst hb; simpa using h 0 (by omega)
      · refine ih 0 (fun i _ => ?_) b (by simpa using hb)
        simpa using h (i + 1) (by omega)
    | succ o2 =>
      rw [List.drop_succ_cons] at hb
      refine ih o2 (fun i hi => ?_) b hb
      simpa using h (i + 1) (by omega)

theorem dictGet_mem {α : Type} :
    ∀ (d : List (Nat × α)) (k : Nat) (v : α), dictGet d k = some v → (k, v) ∈ d := by
  intro d
  induction d with
  | nil => intro k v h; simp [dictGet] at h
  | cons kv rest ih =>
    obtain ⟨k1, v1⟩ := kv
    intro k v h
    rw [dictGet] at h
    by_cases hk : k1 = k
    · rw [if_pos hk] at h
      injection h with hv
      subst hv
      subst hk
      exact List.mem_cons_self _ _
    · rw [if_neg hk] at h
      exact List.mem_cons_of_mem _ (ih k v h)

theorem dictGet_dictSet_self {α : Type} :
    ∀ (d : List (Nat × α)) (k : Nat) (v : α), dictGet (dictSet d k v) k = some v := by
  intro d
  induction d with
  | nil => intro k v; simp [dictGet, dictSet]
  | cons kv rest ih =>
    obtain ⟨k1, v1⟩ := kv
    intro k v
    by_cases hk : k1 = k
    · subst hk
      simp [dictSet, dictGet]
    · simp [dictSet, dictGet, hk, ih k v]

theorem dictGet_dictSet_ne {α : Type} :
    ∀ (d : List (Nat × α)) (k k2 : Nat) (v : α), k2 ≠ k →
      dictGet (dictSet d k v) k2 = dictGet d k2 := by
  intro d
  induction d with
  | nil =>
    intro k k2 v h
    simp [dictSet, dictGet, Ne.symm h]
  | cons kv rest ih =>
    obtain ⟨k1, v1⟩ := kv
    intro k k2 v h
    by_cases hk : k1 = k
    · subst hk
      simp [dictSet, dictGet, Ne.symm h]
    · by_cases hk2 : k1 = k2
      · subst hk2
        simp [dictSet, dictGet, hk]
      · simp [dictSet, dictGet, hk, hk2, ih k k2 v h]

theorem mem_le_foldr_max :
    ∀ (l : List Nat) (x : Nat), x ∈ l → x ≤ l.foldr max 0 := by
  intro l
  induction l with
  | nil => intro x hx; simp at hx
  | cons a tl ih =>
    intro x hx
    rcases List.mem_cons.mp hx with h | h
    · subst h; simp only [List.foldr]; omega
    · have := ih x h
      simp only [List.foldr]
      omega

/-! ### Page lemmas (claims C9 and C10) -/

theorem page_read_zero_of_tail_zero (p : Page) (slot : Nat)
    (h : ∀ i, 8 + p.num_records * 8 ≤ i → p.data.getD i 0 = 0)
    (hslot : p.num_records ≤ slot) : p.read slot = 0 := by
  unfold Page.read
  apply fromBytesLE_eq_zero
  intro b hb
  have hb2 : b ∈ p.data.drop (8 + slot * 8) := List.take_subset _ _ hb
  exact drop_all_zero p.data (8 + slot * 8) (fun i hi => h i (by omega)) b hb2

theorem wfz_new : Page.WFz Page.new := by
  refine ⟨?_, ?_, fun i _ => ?_⟩
  · show (List.replicate PAGE_SIZE (0 : Nat)).length = PAGE_SIZE
    exact List.length_replicate PAGE_SIZE 0
  · show (0 : Nat) ≤ RECORDS_PER_PAGE
    omega
  · exact getD_replicate_self 0 PAGE_SIZE i

theorem wfz_write (p : Page) (value : Nat) (p2 : Page)
    (h : p.WFz) (hw : p.write value = some p2) : p2.WFz := by
  obtain ⟨hlen, hcap, hzero⟩ := h
  unfold Page.write at hw
  by_cases hc : p.has_capacity
  · rw [if_pos hc] at hw
    have hnr : p.num_records < RECORDS_PER_PAGE := by
      simpa [Page.has_capacity] using hc
    by_cases hv : value < 2 ^ 64
    · rw [if_pos hv] at hw
      injection hw with hw
      subst hw
      have hrl : (toBytesLE 8 value).length = 8 := toBytesLE_length 8 value
      have hin : 8 + p.num_records * 8 + (toBytesLE 8 value).length ≤ p.data.length := by
        rw [hrl, hlen]
        unfold RECORDS_PER_PAGE at hnr
        unfold PAGE_SIZE
        omega
      refine ⟨?_, ?_, ?_⟩
      · show (sliceSet p.data (8 + p.num_records * 8) (toBytesLE 8 value)).length =
          PAGE_SIZE
        rw [length_sliceSet _ _ _ hin]
        exact hlen
      · show p.num_records + 1 ≤ RECORDS_PER_PAGE
        omega
      · intro i hi
        have hi2 : 8 + (p.num_records + 1) * 8 ≤ i := hi
        show (sliceSet p.data (8 + p.num_records * 8) (toBytesLE 8 value)).getD i 0 = 0
        rw [sliceSet_getD_high _ _ _ _ _ (by omega) (by rw [hrl]; omega)]
        exact hzero i (by omega)
    · rw [if_neg hv] at hw
      exact absurd hw (by simp)
  · rw [if_neg hc] at hw
    injection hw with hw
    subst hw
    exact ⟨hlen, hcap, hzero⟩

theorem wfz_set_tps (p : Page) (value : Nat) (p2 : Page)
    (h : p.WFz) (hw : p.set_tps value = some p2) : p2.WFz := by
  obtain ⟨hlen, hcap, hzero⟩ := h
  unfold Page.set_tps at hw
  by_cases hv : value < 2 ^ 64
  · rw [if_pos hv] at hw
    injection hw with hw
    subst hw
    have hrl : (toBytesLE 8 value).length = 8 := toBytesLE_length 8 value
    have hin : 0 + (toBytesLE 8 value).length ≤ p.data.length := by
      rw [hrl, hlen]; unfold PAGE_SIZE; omega
    refine ⟨?_, hcap, ?_⟩
    · show (sliceSet p.data 0 (toBytesLE 8 value)).length = PAGE_SIZE
      rw [length_sliceSet _ _ _ hin]
      exact hlen
    · intro i hi
      have hi2 : 8 + p.num_records * 8 ≤ i := hi
      show (sliceSet p.data 0 (toBytesLE 8 value)).getD i 0 = 0
      rw [sliceSet_getD_high _ _ _ _ _ (by omega) (by rw [hrl]; omega)]
      exact hzero i hi2
  · rw [if_neg hv] at hw
    exact absurd hw (by simp)

theorem wfz_update (p : Page) (slot value : Nat) (b : Bool) (p2 : Page)
    (h : p.WFz) (hw : p.update slot value = some (b, p2)) : p2.WFz := by
  obtain ⟨hlen, hcap, hzero⟩ := h
  unfold Page.update at hw
  by_cases hs : slot < p.num_records
  · rw [if_pos hs] at hw
    by_cases hv : value < 2 ^ 64
    · rw [if_pos hv] at hw
      injection hw with hw
      have hw2 : p2 = { p with data := sliceSet p.data (8 + slot * 8) (toBytesLE 8 value),
                               dirty := true } := by
        have := congrArg Prod.snd hw
        simpa using this.symm
      subst hw2
      have hrl : (toBytesLE 8 value).length = 8 := toBytesLE_length 8 value
      have hin : 8 + slot * 8 + (toBytesLE 8 value).length ≤ p.data.length := by
        rw [hrl, hlen]
        unfold RECORDS_PER_PAGE at hcap
        unfold PAGE_SIZE
        omega
      refine ⟨?_, hcap, ?_⟩
      · show (sliceSet p.data (8 + slot * 8) (toBytesLE 8 value)).length = PAGE_SIZE
        rw [length_sliceSet _ _ _ hin]
        exact hlen
      · intro i hi
        have hi2 : 8 + p.num_records * 8 ≤ i := hi
        show (sliceSet p.data (8 + slot * 8) (toBytesLE 8 value)).getD i 0 = 0
        rw [sliceSet_getD_high _ _ _ _ _ (by omega) (by rw [hrl]; omega)]
        exact hzero i hi2
    · rw [if_neg hv] at hw
      exact absurd hw (by simp)
  · rw [if_neg hs] at hw
    injection hw with hw
    have hw2 : p2 = p := by
      have := congrArg Prod.snd hw
      simpa using this.symm
    subst hw2
    exact ⟨hlen, hcap, hzero⟩

/-- C9 (amended): `Page.read` performs no bounds check.  On every page
reachable through the page operations (characterized by `Page.WFz`,
which holds of a fresh page and is preserved by `write`, `set_tps` and
`update`), reading any slot at or past `num_records` silently returns
the value 0 — indistinguishable from a stored 0 — instead of reporting
a bounds violation. -/
theorem page_read_no_bounds_check :
    (∀ (p : Page) (slot : Nat), p.WFz → p.num_records ≤ slot → p.read slot = 0) ∧
    Page.WFz Page.new ∧
    (∀ (p : Page) (value : Nat) (p2 : Page), p.WFz → p.write value = some p2 →
       p2.WFz) ∧
    (∀ (p : Page) (value : Nat) (p2 : Page), p.WFz → p.set_tps value = some p2 →
       p2.WFz) ∧
    (∀ (p : Page) (slot value : Nat) (b : Bool) (p2 : Page), p.WFz →
       p.update slot value = some (b, p2) → p2.WFz) :=
  ⟨fun p slot h hs => page_read_zero_of_tail_zero p slot h.2.2 hs,
   wfz_new, wfz_write, wfz_set_tps, wfz_update⟩

/-- C9, counterexample to the claim as stated: reading slot 5 of a
fresh page (`num_records = 0`) is not detected as an error; the source
`read` returns the value 0, while the bounds-checked read described by
the specification reports the out-of-range access. -/
theorem page_read_unchecked_counterexample :
    Page.new.num_records = 0 ∧ Page.new.read 5 = 0 ∧
      Page.new.read_checked 5 = none := by
  refine ⟨rfl, ?_, rfl⟩
  exact page_read_zero_of_tail_zero Page.new 5
    (fun i _ => getD_replicate_self 0 PAGE_SIZE i) (by decide)

theorem page_read_no_bounds_check_witness :
    Page.new.num_records ≤ 600 ∧ Page.new.read 600 = 0 :=
  ⟨by decide,
   page_read_no_bounds_check.1 Page.new 600 page_read_no_bounds_check.2.1
     (by decide)⟩

/-- C10: writing to a full page (`num_records = 511`) is a silent
no-op — no error is raised and the page (bytes, `num_records`, dirty
flag) is returned unchanged — and consequently `write` never pushes
`num_records` past the 511-slot cap. -/
theorem page_write_full_noop :
    (∀ (p : Page) (value : Nat), p.num_records = RECORDS_PER_PAGE →
       p.write value = some p) ∧
    (∀ (p : Page) (value : Nat) (p2 : Page), p.num_records ≤ RECORDS_PER_PAGE →
       p.write value = some p2 → p2.num_records ≤ RECORDS_PER_PAGE) := by
  constructor
  · intro p value h
    unfold Page.write
    rw [if_neg (by simp [Page.has_capacity, h])]
  · intro p value p2 hle hw
    unfold Page.write at hw
    by_cases hc : p.has_capacity
    · rw [if_pos hc] at hw
      have hnr : p.num_records < RECORDS_PER_PAGE := by
        simpa [Page.has_capacity] using hc
      by_cases hv : value < 2 ^ 64
      · rw [if_pos hv] at hw
        injection hw with hw
        subst hw
        simpa using hnr
      · rw [if_neg hv] at hw
        exact absurd hw (by simp)
    · rw [if_neg hc] at hw
      injection hw with hw
      subst hw
      exact hle

theorem page_write_full_noop_witness :
    fullPage.num_records = RECORDS_PER_PAGE ∧ fullPage.write 7 = some fullPage :=
  ⟨rfl, page_write_full_noop.1 fullPage 7 rfl⟩

/-! ### Lock manager (claim C7) -/

/-- C7: a shared acquire succeeds exactly when there is no exclusive
holder other than the requester or the requester already holds the
lock; a fresh exclusive acquire succeeds exactly when the lock is
completely free; an upgrade by a shared holder succeeds exactly when it
is the sole shared holder and no exclusive holder exists; and every
failing acquire leaves the lock state unchanged. -/
theorem lock_acquire_correct (l : Lock) (tid : Nat) :
    ((l.acquire tid .shared).1 = true ↔
       (l.exclusive_holder = none ∨ l.exclusive_holder = some tid ∨
         tid ∈ l.lock_holders)) ∧
    (tid ∉ l.lock_holders → l.exclusive_holder ≠ some tid →
       ((l.acquire tid .exclusive).1 = true ↔
         (l.lock_holders = ∅ ∧ l.exclusive_holder = none))) ∧
    (tid ∈ l.lock_holders →
       ((l.acquire tid .exclusive).1 = true ↔
         (l.lock_holders = {tid} ∧ l.exclusive_holder = none))) ∧
    (∀ lock_type, (l.acquire tid lock_type).1 = false →
       (l.acquire tid lock_type).2 = l) := by
  refine ⟨?_, ?_, ?_, ?_⟩
  · by_cases hmem : tid ∈ l.lock_holders
    · simp [Lock.acquire, hmem]
    · by_cases hex : some tid = l.exclusive_holder
      · simp [Lock.acquire, hmem, ← hex]
      · by_cases hnone : l.exclusive_holder = none
        · simp [Lock.acquire, hmem, hex, hnone]
        · simp [Lock.acquire, hmem, hex, hnone, Ne.symm hex]
  · intro hmem hex
    simp only [Lock.acquire, if_neg hmem,
      if_neg (fun h : some tid = l.exclusive_holder => hex h.symm)]
    by_cases hcond : l.exclusive_holder = none ∧ l.lock_holders.card = 0
    · simp only [if_pos hcond]
      obtain ⟨h1, h2⟩ := hcond
      simp [h1, Finset.card_eq_zero.mp h2]
    · simp only [if_neg hcond]
      constructor
      · intro h
        exact absurd h (by simp)
      · rintro ⟨h1, h2⟩
        exact absurd ⟨h2, by rw [h1]; simp⟩ hcond
  · intro hmem
    simp only [Lock.acquire, if_pos hmem]
    by_cases hcond : l.lock_holders.card = 1 ∧ l.exclusive_holder = none
    · simp only [if_pos hcond]
      obtain ⟨h1, h2⟩ := hcond
      obtain ⟨a, ha⟩ := Finset.card_eq_one.mp h1
      have hta : tid = a := by
        rw [ha] at hmem
        simpa using hmem
      subst hta
      simp [ha, h2]
    · simp only [if_neg hcond]
      constructor
      · intro h
        exact absurd h (by simp)
      · rintro ⟨h1, h2⟩
        exact absurd ⟨by rw [h1]; simp, h2⟩ hcond
  · intro lock_type
    cases lock_type <;>
      (unfold Lock.acquire
       split_ifs <;> simp_all)

theorem lock_acquire_correct_witness :
    ((Lock.acquire ⟨∅, some 2⟩ 1 .shared).1 = false ∧
       (Lock.acquire ⟨∅, some 2⟩ 1 .shared).2 = (⟨∅, some 2⟩ : Lock)) ∧
    (Lock.acquire ⟨{5}, none⟩ 5 .exclusive).1 = true ∧
    (Lock.acquire ⟨∅, none⟩ 7 .exclusive).1 = true := by
  have h1 := lock_acquire_correct ⟨∅, some 2⟩ 1
  have h2 := lock_acquire_correct ⟨{5}, none⟩ 5
  have h3 := lock_acquire_correct (⟨∅, none⟩ : Lock) 7
  refine ⟨⟨?_, ?_⟩, ?_, ?_⟩
  · have := h1.1
    simp only [show ((⟨∅, some 2⟩ : Lock)).exclusive_holder = some 2 from rfl] at this
    by_cases hb : (Lock.acquire ⟨∅, some 2⟩ 1 .shared).1 = true
    · exact absurd (this.mp hb) (by decide)
    · simpa using hb
  · apply h1.2.2.2 .shared
    by_cases hb : (Lock.acquire ⟨∅, some 2⟩ 1 .shared).1 = true
    · exact absurd (h1.1.mp hb) (by decide)
    · simpa using hb
  · exact (h2.2.2.1 (by decide)).mpr (by decide)
  · exact (h3.2.1 (by decide) (by decide)).mpr (by decide)

/-! ### Range-sum out-of-range bug (claim C8) -/

/-- C8, evaluation at the failing input: in the S3 table every base
record's latest primary key is 1, 2 or 3, so no primary key lies in
[5, 10]; the claim (and `locate_range`'s own docstring) demand
`sum(5, 10, 2) = False`, but the code returns 300.  The binary search
in `Index.locate_range` starts with `high = len(sorted_keys) - 1`, so
when every key is below `lo` it lands on the last key and the
linked-list walk (`value <= hi`) happily aggregates it. -/
theorem sum_out_of_range_code_bug :
    Query.sum tableS3 5 10 2 = some 300 ∧
    tableS3.page_directory =
      [(1, (0, false, 0)), (2, (0, false, 1)), (3, (0, false, 2))] ∧
    (tableS3.get_latest_version 1).map (fun r => r.1.getD tableS3.key 0) = some 1 ∧
    (tableS3.get_latest_version 2).map (fun r => r.1.getD tableS3.key 0) = some 2 ∧
    (tableS3.get_latest_version 3).map (fun r => r.1.getD tableS3.key 0) = some 3 := by
  decide

/-! ### Abort does not restore the index (claim C4) -/

/-- C4, evaluation at the failing input: transaction 1 inserts key 9
into a fresh table and aborts.  The rollback removes the directory
entry and tombstones the record, but the key index still maps 9 to the
dead RID — because `rollback_modifications` tombstones the RID column
*before* calling `get_latest_version` to collect the values to remove,
so the lookup returns `None` and the index removal is skipped.  A
subsequent insert of key 9 is then rejected as a duplicate forever. -/
theorem abort_index_not_restored_code_bug :
    Index.locate tableTx 0 9 = ∅ ∧
    tableTx.page_directory = [] ∧
    (tableTx.insert 0 [9, 10, 100]).2 = some 1 ∧
    Index.locate tableTxAborted 0 9 = {1} ∧
    dictGet tableTxAborted.page_directory 1 = none ∧
    tableTxAborted.read_record 1 = none ∧
    (tableTxAborted.insert 0 [9, 11, 111]).2 = none := by
  decide

/-! ### Insert after a delete can fail on a clean key (claim C3) -/

/-- C3, counterexample to the claim as stated: `tableDeadKey` is a
reachable state (inserts of keys 1, 5, 7, then delete of key 5).  The
insert of key 6 has the right arity and key 6 has no entry in the key
index, yet `Query.insert` returns `False`: `Index.insert` binary-
searches around the tombstoned key 5 that is still in `sorted_keys`,
looks the dead neighbour up in `idx_map`, and raises `KeyError`. -/
theorem insert_dead_neighbour_counterexample :
    ([6, 60, 600] : List Nat).length = tableDeadKey.num_columns ∧
    Index.locate tableDeadKey tableDeadKey.key 6 = ∅ ∧
    (Query.insert tableDeadKey 0 [6, 60, 600]).1 = false := by
  decide

/-! ### Version walks along the indirection chain (claim C1) -/

theorem chainLinked_cons (t : Table) (r : Nat) (rec : List Nat)
    (rest : List (Nat × List Nat)) (h : t.chainLinked ((r, rec) :: rest) = true) :
    r ≠ 0 ∧ t.read_record r = some rec ∧
      rec.getD INDIRECTION_COLUMN 0 = headRid rest ∧ t.chainLinked rest = true := by
  simp only [Table.chainLinked, Bool.and_eq_true, decide_eq_true_eq] at h
  exact ⟨h.1.1.1, h.1.1.2, h.1.2, h.2⟩

theorem versionWalk_chain (t : Table) :
    ∀ (chain : List (Nat × List Nat)), t.chainLinked chain = true →
      ∀ n, t.versionWalk (headRid chain) n = some (headRid (chain.drop n)) := by
  intro chain
  induction chain with
  | nil =>
    intro _ n
    cases n with
    | zero => rfl
    | succ m => simp [Table.versionWalk, headRid]
  | cons hd rest ih =>
    obtain ⟨r, rec⟩ := hd
    intro h n
    obtain ⟨hr, hread, hind, hrest⟩ := chainLinked_cons t r rec rest h
    cases n with
    | zero => rfl
    | succ m =>
      show t.versionWalk r (m + 1) = some (headRid (rest.drop m))
      rw [Table.versionWalk, if_neg hr, hread]
      show t.versionWalk (rec.getD INDIRECTION_COLUMN 0) m = some (headRid (rest.drop m))
      rw [hind]
      exact ih hrest m

theorem drop_eq_getD_cons {α : Type} (d : α) :
    ∀ (l : List α) (n : Nat), n < l.length →
      l.drop n = l.getD n d :: l.drop (n + 1) := by
  intro l
  induction l with
  | nil => intro n hn; simp at hn
  | cons a tl ih =>
    intro n hn
    cases n with
    | zero => simp
    | succ m =>
      rw [List.drop_succ_cons, List.getD_cons_succ, List.drop_succ_cons]
      exact ih m (by simpa using hn)

theorem chainLinked_drop (t : Table) :
    ∀ (chain : List (Nat × List Nat)), t.chainLinked chain = true →
      ∀ n, t.chainLinked (chain.drop n) = true := by
  intro chain
  induction chain with
  | nil => intro h n; simpa using h
  | cons hd rest ih =>
    obtain ⟨r, rec⟩ := hd
    intro h n
    cases n with
    | zero => exact h
    | succ m =>
      rw [List.drop_succ_cons]
      exact ih (chainLinked_cons t r rec rest h).2.2.2 m

theorem get_latest_version_tail (t : Table) (rid : Nat) (base rec : List Nat)
    (hbase : t.read_record rid = some base)
    (hr : base.getD INDIRECTION_COLUMN 0 ≠ 0)
    (hread : t.read_record (base.getD INDIRECTION_COLUMN 0) = some rec) :
    t.get_latest_version rid =
      some (rec.drop 4, rec.getD SCHEMA_ENCODING_COLUMN 0) := by
  simp only [Table.get_latest_version, hbase]
  rw [if_neg hr, hread]

theorem get_latest_version_base (t : Table) (rid : Nat) (base : List Nat)
    (hbase : t.read_record rid = some base)
    (h0 : base.getD INDIRECTION_COLUMN 0 = 0) :
    t.get_latest_version rid =
      some (base.drop 4, base.getD SCHEMA_ENCODING_COLUMN 0) := by
  simp only [Table.get_latest_version, hbase]
  rw [if_pos h0]

theorem get_version_zero (t : Table) (rid : Nat) (base : List Nat)
    (hbase : t.read_record rid = some base) :
    t.get_version rid 0 = t.get_latest_version rid := by
  simp only [Table.get_version, hbase]
  rw [if_pos trivial]

theorem get_version_neg_base (t : Table) (rid : Nat) (base : List Nat) (n : Nat)
    (hbase : t.read_record rid = some base) (hn : 0 < n)
    (h0 : base.getD INDIRECTION_COLUMN 0 = 0) :
    t.get_version rid (-(n : Int)) =
      some (base.drop 4, base.getD SCHEMA_ENCODING_COLUMN 0) := by
  have hne : ¬(-(n : Int) = 0) := by omega
  simp only [Table.get_version, hbase]
  rw [if_neg hne, if_pos h0]

theorem get_version_neg_walked (t : Table) (rid : Nat) (base : List Nat)
    (n curr : Nat) (hbase : t.read_record rid = some base) (hn : 0 < n)
    (hr : base.getD INDIRECTION_COLUMN 0 ≠ 0)
    (hwalk : t.versionWalk (base.getD INDIRECTION_COLUMN 0) n = some curr) :
    t.get_version rid (-(n : Int)) =
      (if curr = 0 then some (base.drop 4, base.getD SCHEMA_ENCODING_COLUMN 0)
       else
         match t.read_record curr with
         | none => none
         | some version_record =>
           some (version_record.drop 4,
                 version_record.getD SCHEMA_ENCODING_COLUMN 0)) := by
  have hne : ¬(-(n : Int) = 0) := by omega
  have habs : (-(n : Int)).natAbs = n := by omega
  simp only [Table.get_version, hbase]
  rw [if_neg hne, if_neg hr, habs, hwalk]

/-- C1: version lookups against an explicit indirection chain
(`chain`, newest tail first, with `L = chain.length`).
`get_version(rid, 0)` returns the user columns of the newest tail (the
record whose RID is the base's `INDIRECTION`); `get_version(rid, -n)`
returns, for `0 < n < L`, the record reached by walking `n` steps along
the chain from the newest tail (entry `n` of the chain), and, for
`n ≥ L` — where `n = L` walks through the chain-terminating 0 pointer
and `n > L` runs out of chain — the base record's own user columns. -/
theorem get_version_chain (t : Table) (rid : Nat) (base : List Nat)
    (chain : List (Nat × List Nat)) (h : t.IsChain rid base chain) :
    (0 < chain.length →
       t.get_version rid 0 =
         some ((chain.getD 0 (0, [])).2.drop 4,
               (chain.getD 0 (0, [])).2.getD SCHEMA_ENCODING_COLUMN 0)) ∧
    (∀ n : Nat, 0 < n → n < chain.length →
       t.get_version rid (-(n : Int)) =
         some ((chain.getD n (0, [])).2.drop 4,
               (chain.getD n (0, [])).2.getD SCHEMA_ENCODING_COLUMN 0)) ∧
    (∀ n : Nat, 0 < n → chain.length ≤ n →
       t.get_version rid (-(n : Int)) =
         some (base.drop 4, base.getD SCHEMA_ENCODING_COLUMN 0)) := by
  obtain ⟨hbase, hhead, hlink⟩ := h
  refine ⟨?_, ?_, ?_⟩
  · intro hlen
    have hdrop := drop_eq_getD_cons (0, ([] : List Nat)) chain 0 hlen
    rw [List.drop_zero] at hdrop
    obtain ⟨hr0, hread0, _, _⟩ :=
      chainLinked_cons t (chain.getD 0 (0, [])).1 (chain.getD 0 (0, [])).2
        (chain.drop 1) (by rw [← hdrop]; exact hlink)
    have hhead0 : headRid chain = (chain.getD 0 (0, [])).1 := by
      rw [hdrop]; rfl
    have hrh : base.getD INDIRECTION_COLUMN 0 ≠ 0 := by
      rw [hhead, hhead0]; exact hr0
    rw [get_version_zero t rid base hbase]
    refine get_latest_version_tail t rid base (chain.getD 0 (0, [])).2 hbase hrh ?_
    rw [hhead, hhead0]
    exact hread0
  · intro n hn hnl
    have hdrop := drop_eq_getD_cons (0, ([] : List Nat)) chain n hnl
    obtain ⟨hrn, hreadn, _, _⟩ :=
      chainLinked_cons t (chain.getD n (0, [])).1 (chain.getD n (0, [])).2
        (chain.drop (n + 1))
        (by rw [← hdrop]; exact chainLinked_drop t chain hlink n)
    have hheadn : headRid (chain.drop n) = (chain.getD n (0, [])).1 := by
      rw [hdrop]; rfl
    have hL : 0 < chain.length := lt_of_le_of_lt (Nat.zero_le n) hnl
    have hdrop0 := drop_eq_getD_cons (0, ([] : List Nat)) chain 0 hL
    rw [List.drop_zero] at hdrop0
    obtain ⟨hr0, _, _, _⟩ :=
      chainLinked_cons t (chain.getD 0 (0, [])).1 (chain.getD 0 (0, [])).2
        (chain.drop 1) (by rw [← hdrop0]; exact hlink)
    have hhead0 : headRid chain = (chain.getD 0 (0, [])).1 := by
      rw [hdrop0]; rfl
    have hrh : base.getD INDIRECTION_COLUMN 0 ≠ 0 := by
      rw [hhead, hhead0]; exact hr0
    have hwalk : t.versionWalk (base.getD INDIRECTION_COLUMN 0) n =
        some ((chain.getD n (0, [])).1) := by
      rw [hhead, versionWalk_chain t chain hlink n, hheadn]
    rw [get_version_neg_walked t rid base n (chain.getD n (0, [])).1 hbase hn hrh
      hwalk]
    rw [if_neg hrn, hreadn]
  · intro n hn hln
    by_cases hL : 0 < chain.length
    · have hdrop0 := drop_eq_getD_cons (0, ([] : List Nat)) chain 0 hL
      rw [List.drop_zero] at hdrop0
      obtain ⟨hr0, _, _, _⟩ :=
        chainLinked_cons t (chain.getD 0 (0, [])).1 (chain.getD 0 (0, [])).2
          (chain.drop 1) (by rw [← hdrop0]; exact hlink)
      have hhead0 : headRid chain = (chain.getD 0 (0, [])).1 := by
        rw [hdrop0]; rfl
      have hrh : base.getD INDIRECTION_COLUMN 0 ≠ 0 := by
        rw [hhead, hhead0]; exact hr0
      have hdropnil : chain.drop n = [] := List.drop_eq_nil_of_le hln
      have hwalk : t.versionWalk (base.getD INDIRECTION_COLUMN 0) n = some 0 := by
        rw [hhead, versionWalk_chain t chain hlink n, hdropnil]
        rfl
      rw [get_version_neg_walked t rid base n 0 hbase hn hrh hwalk]
      rw [if_pos rfl]
    · have hnil : chain = [] := by
        cases chain with
        | nil => rfl
        | cons a b => simp at hL
      subst hnil
      exact get_version_neg_base t rid base n hbase hn hhead

theorem get_version_chain_witness :
    tableS2b.IsChain 1 [3, 1, 0, 6, 1, 10, 100] chainS2b ∧
    tableS2b.get_version 1 0 = some ([1, 20, 30], 6) ∧
    tableS2b.get_version 1 (-1) = some ([1, 20, 100], 2) ∧
    tableS2b.get_version 1 (-2) = some ([1, 10, 100], 6) ∧
    tableS2b.get_version 1 (-5) = some ([1, 10, 100], 6) := by
  have hc : tableS2b.IsChain 1 [3, 1, 0, 6, 1, 10, 100] chainS2b :=
    ⟨by decide, by decide, by decide⟩
  have h := get_version_chain tableS2b 1 [3, 1, 0, 6, 1, 10, 100] chainS2b hc
  refine ⟨hc, ?_, ?_, ?_, ?_⟩
  · exact (h.1 (by decide)).trans (by decide)
  · exact (h.2.1 1 (by decide) (by decide)).trans (by decide)
  · exact (h.2.2 2 (by decide) (by decide)).trans (by decide)
  · exact (h.2.2 5 (by decide) (by decide)).trans (by decide)

/-! ### The merge pass only touches TPS words (claims C5 and C6) -/

theorem get?_map' {α β : Type} (f : α → β) :
    ∀ (l : List α) (i : Nat), (l.map f).get? i = (l.get? i).map f := by
  intro l
  induction l with
  | nil => intro i; simp
  | cons a tl ih =>
    intro i
    cases i with
    | zero => simp
    | succ j => simpa using ih j

theorem readLoc_congr (r1 r2 : List PageRange)
    (h : r1.map PageRange.storeView = r2.map PageRange.storeView) (loc : Loc) :
    readLoc r1 loc = readLoc r2 loc := by
  obtain ⟨range_idx, is_tail, offset⟩ := loc
  have hget : (r1.get? range_idx).map PageRange.storeView =
      (r2.get? range_idx).map PageRange.storeView := by
    rw [← get?_map', ← get?_map', h]
  show (match r1.get? range_idx with
        | none => none
        | some pr =>
          let record_data :=
            if is_tail then pr.read_tail_record offset else pr.read_base_record offset
          if record_data.getD RID_COLUMN 0 = DELETED_RID then none
          else some record_data) =
      (match r2.get? range_idx with
        | none => none
        | some pr =>
          let record_data :=
            if is_tail then pr.read_tail_record offset else pr.read_base_record offset
          if record_data.getD RID_COLUMN 0 = DELETED_RID then none
          else some record_data)
  cases h1 : r1.get? range_idx with
  | none =>
    cases h2 : r2.get? range_idx with
    | none => rfl
    | some pr => rw [h1, h2] at hget; simp at hget
  | some pr1 =>
    cases h2 : r2.get? range_idx with
    | none => rw [h1, h2] at hget; simp at hget
    | some pr2 =>
      rw [h1, h2] at hget
      simp at hget
      have hbc : pr1.base_cols = pr2.base_cols :=
        congrArg (fun v => v.2.2.1) hget
      have htc : pr1.tail_cols = pr2.tail_cols :=
        congrArg (fun v => v.2.2.2) hget
      simp only [PageRange.read_base_record, PageRange.read_tail_record, hbc, htc]

theorem read_record_of_view_eq {t t2 : Table} (h : t2.View = t.View) (rid : Nat) :
    t2.read_record rid = t.read_record rid := by
  have hd : t2.page_directory = t.page_directory :=
    congrArg (fun v => v.1) h
  have hr : t2.page_ranges.map PageRange.storeView =
      t.page_ranges.map PageRange.storeView :=
    congrArg (fun v => v.2.1) h
  unfold Table.read_record
  rw [hd]
  cases hloc : dictGet t.page_directory rid with
  | none => rfl
  | some loc =>
    show readLoc t2.page_ranges loc = readLoc t.page_ranges loc
    exact readLoc_congr t2.page_ranges t.page_ranges hr loc

theorem get_latest_version_of_view_eq {t t2 : Table} (h : t2.View = t.View)
    (rid : Nat) : t2.get_latest_version rid = t.get_latest_version rid := by
  unfold Table.get_latest_version
  rw [read_record_of_view_eq h rid]
  cases t.read_record rid with
  | none => rfl
  | some base_record =>
    simp only [read_record_of_view_eq h]

theorem map_storeView_set_tps (l : List PageRange) (i : Nat)
    (tpsL : List (Nat × Nat)) :
    (l.set i { l.getD i default with tps := tpsL }).map PageRange.storeView =
      l.map PageRange.storeView := by
  rw [map_set']
  have h1 : PageRange.storeView { l.getD i default with tps := tpsL } =
      PageRange.storeView (l.getD i default) := rfl
  rw [h1, show PageRange.storeView (l.getD i default) =
    (l.map PageRange.storeView).getD i (PageRange.storeView default) from
      (getD_map' PageRange.storeView default l i).symm]
  exact set_getD_self (PageRange.storeView default) (l.map PageRange.storeView) i

theorem view_set_tps (t : Table) (i : Nat) (tpsL : List (Nat × Nat)) :
    (Table.View { t with page_ranges := (t.page_ranges.set i
        { t.page_ranges.getD i default with tps := tpsL }) }) = t.View := by
  simp only [Table.View]
  rw [map_storeView_set_tps]

theorem mergeRid_view (t : Table) (range_idx rid offset : Nat) :
    (t.mergeRid range_idx rid offset).View = t.View := by
  simp only [Table.mergeRid]
  repeat' split
  all_goals first
    | rfl
    | exact view_set_tps t range_idx _

theorem foldl_mergeRid_view (t0 : Table) (ridx : Nat) :
    ∀ (l : List (Nat × Nat)) (acc : Table), acc.View = t0.View →
      (l.foldl (fun acc2 ro => acc2.mergeRid ridx ro.1 ro.2) acc).View =
        t0.View := by
  intro l
  induction l with
  | nil => intro acc h; exact h
  | cons a tl ih =>
    intro acc h
    exact ih _ ((mergeRid_view acc ridx a.1 a.2).trans h)

theorem foldl_groups_view (t0 : Table) (n_ranges : Nat) :
    ∀ (groups : List (Nat × List (Nat × Nat))) (acc : Table), acc.View = t0.View →
      (groups.foldl
        (fun acc g =>
          if n_ranges ≤ g.1 then acc
          else g.2.foldl (fun acc2 ro => acc2.mergeRid g.1 ro.1 ro.2) acc)
        acc).View = t0.View := by
  intro groups
  induction groups with
  | nil => intro acc h; exact h
  | cons g tl ih =>
    intro acc h
    by_cases hg : n_ranges ≤ g.1
    · simp only [List.foldl, if_pos hg]
      exact ih acc h
    · simp only [List.foldl, if_neg hg]
      exact ih _ (foldl_mergeRid_view t0 g.1 g.2 acc h)

theorem merge_view (t : Table) : t.merge.View = t.View := by
  unfold Table.merge Table.mergePass
  by_cases he : t.rids_to_merge.isEmpty
  · rw [if_pos he]
    rfl
  · rw [if_neg he]
    exact foldl_groups_view t _ _ _ rfl


/-- C5: a merge pass never changes the page directory, the record
bytes of any base or tail page, or the indexes — it only rewrites the
TPS header words (the only field outside `storeView`) — and therefore
`get_latest_version` returns exactly the same answer for every RID
after the merge as before it. -/
theorem merge_value_preserving (t : Table) :
    t.merge.page_directory = t.page_directory ∧
    t.merge.page_ranges.map PageRange.storeView =
      t.page_ranges.map PageRange.storeView ∧
    t.merge.indices = t.indices ∧
    (∀ rid, t.merge.get_latest_version rid = t.get_latest_version rid) := by
  have hv := merge_view t
  exact ⟨congrArg (fun v => v.1) hv, congrArg (fun v => v.2.1) hv,
    congrArg (fun v => v.2.2.1) hv,
    fun rid => get_latest_version_of_view_eq hv rid⟩

theorem getD_of_length_le {α : Type} (d : α) :
    ∀ (l : List α) (i : Nat), l.length ≤ i → l.getD i d = d := by
  intro l
  induction l with
  | nil => intro i _; simp
  | cons a tl ih =>
    intro i hi
    cases i with
    | zero => simp at hi
    | succ j => simpa using ih j (by simpa using hi)

theorem chainRids_head (t : Table) (start fuel : Nat) (h : start ≠ 0) :
    start ∈ t.chainRids start (fuel + 1) := by
  rw [Table.chainRids, if_neg h]
  cases t.read_record start with
  | none => exact List.mem_singleton_self start
  | some rec => exact List.mem_cons_self start _

theorem mem_foldr_append {α β : Type} (g : α → List β) :
    ∀ (L : List α) (o : α) (x : β), o ∈ L → x ∈ g o →
      x ∈ L.foldr (fun o acc => g o ++ acc) [] := by
  intro L
  induction L with
  | nil => intro o x ho _; simp at ho
  | cons a tl ih =>
    intro o x ho hx
    rcases List.mem_cons.mp ho with h | h
    · subst h
      exact List.mem_append_left _ hx
    · exact List.mem_append_right _ (ih o x h hx)

theorem tail_mem_reachable (t : Table) (range_idx offset : Nat)
    (hlt : range_idx < t.page_ranges.length)
    (hoff : offset < (t.page_ranges.getD range_idx default).num_base_records)
    (hrid : ((t.page_ranges.getD range_idx default).read_base_record offset).getD
        RID_COLUMN 0 ≠ 0)
    (hind : ((t.page_ranges.getD range_idx default).read_base_record offset).getD
        INDIRECTION_COLUMN 0 ≠ 0) :
    ((t.page_ranges.getD range_idx default).read_base_record offset).getD
        INDIRECTION_COLUMN 0 ∈
      t.reachableTailsOnPage range_idx (offset / RECORDS_PER_PAGE) := by
  unfold Table.reachableTailsOnPage
  rw [get?_eq_some_getD default t.page_ranges range_idx hlt]
  apply mem_foldr_append
    (fun off =>
      let base := (t.page_ranges.getD range_idx default).read_base_record off
      if base.getD RID_COLUMN 0 ≠ 0 then
        t.chainRids (base.getD INDIRECTION_COLUMN 0) (t.page_directory.length + 1)
      else [])
    _ offset
  · rw [List.mem_filter]
    exact ⟨List.mem_range.mpr hoff, by simp⟩
  · simp only [if_pos hrid]
    exact chainRids_head t _ t.page_directory.length hind

theorem storeView_getD_of_view {t t2 : Table} (h : t2.View = t.View) (i : Nat) :
    PageRange.storeView (t2.page_ranges.getD i default) =
      PageRange.storeView (t.page_ranges.getD i default) := by
  have hr : t2.page_ranges.map PageRange.storeView =
      t.page_ranges.map PageRange.storeView :=
    congrArg (fun v => v.2.1) h
  calc PageRange.storeView (t2.page_ranges.getD i default)
      = (t2.page_ranges.map PageRange.storeView).getD i
          (PageRange.storeView default) :=
        (getD_map' PageRange.storeView default t2.page_ranges i).symm
    _ = (t.page_ranges.map PageRange.storeView).getD i
          (PageRange.storeView default) := by rw [hr]
    _ = PageRange.storeView (t.page_ranges.getD i default) :=
        getD_map' PageRange.storeView default t.page_ranges i

theorem ranges_length_of_view {t t2 : Table} (h : t2.View = t.View) :
    t2.page_ranges.length = t.page_ranges.length := by
  have hr : t2.page_ranges.map PageRange.storeView =
      t.page_ranges.map PageRange.storeView :=
    congrArg (fun v => v.2.1) h
  have := congrArg List.length hr
  simpa using this

theorem tpsOf_set_range (t : Table) (i : Nat) (newpr : PageRange) (rp pp : Nat) :
    Table.tpsOf { t with page_ranges := t.page_ranges.set i newpr } rp pp =
      ((t.page_ranges.set i newpr).getD rp default).tpsAt pp := rfl

theorem mergeRid_tps_cases (t : Table) (range_idx rid offset rp pp : Nat) :
    (t.mergeRid range_idx rid offset).tpsOf rp pp = t.tpsOf rp pp ∨
    (t.tpsOf rp pp < (t.mergeRid range_idx rid offset).tpsOf rp pp ∧
     rp = range_idx ∧ pp = offset / RECORDS_PER_PAGE ∧
     range_idx < t.page_ranges.length ∧
     (t.mergeRid range_idx rid offset).tpsOf rp pp =
       ((t.page_ranges.getD range_idx default).read_base_record offset).getD
         INDIRECTION_COLUMN 0 ∧
     ((t.page_ranges.getD range_idx default).read_base_record offset).getD
         RID_COLUMN 0 ≠ 0 ∧
     ((t.page_ranges.getD range_idx default).read_base_record offset).getD
         INDIRECTION_COLUMN 0 ≠ 0) := by
  simp only [Table.mergeRid]
  split
  · exact Or.inl rfl
  split
  · exact Or.inl rfl
  split
  · exact Or.inl rfl
  split
  · exact Or.inl rfl
  split
  · exact Or.inl rfl
  split
  · rename_i hempty hdel htail0 htpsskip o v hglv hset
    have hne : ¬((t.page_ranges.getD range_idx default).read_base_record offset)
        = [] := by
      intro hecontra
      exact hempty (by rw [hecontra]; rfl)
    have hlen : range_idx < t.page_ranges.length := by
      by_contra hge
      have hd : t.page_ranges.getD range_idx default = default :=
        getD_of_length_le default t.page_ranges range_idx (by omega)
      apply hne
      rw [hd]
      rfl
    by_cases hrp : rp = range_idx
    · subst hrp
      by_cases hpp2 : pp = offset / RECORDS_PER_PAGE
      · subst hpp2
        right
        have hnew : Table.tpsOf
            { t with page_ranges := (t.page_ranges.set rp
                { t.page_ranges.getD rp default with
                    tps := dictSet (t.page_ranges.getD rp default).tps
                      (offset / RECORDS_PER_PAGE)
                      (((t.page_ranges.getD rp default).read_base_record offset).getD
                        INDIRECTION_COLUMN 0) }) }
            rp (offset / RECORDS_PER_PAGE) =
            ((t.page_ranges.getD rp default).read_base_record offset).getD
              INDIRECTION_COLUMN 0 := by
          rw [tpsOf_set_range, getD_set_self default _ t.page_ranges rp hlen]
          unfold PageRange.tpsAt
          rw [show ({ t.page_ranges.getD rp default with
              tps := dictSet (t.page_ranges.getD rp default).tps
                (offset / RECORDS_PER_PAGE)
                (((t.page_ranges.getD rp default).read_base_record offset).getD
                  INDIRECTION_COLUMN 0) } : PageRange).tps =
            dictSet (t.page_ranges.getD rp default).tps
              (offset / RECORDS_PER_PAGE)
              (((t.page_ranges.getD rp default).read_base_record offset).getD
                INDIRECTION_COLUMN 0) from rfl]
          rw [dictGet_dictSet_self]
          rfl
        refine ⟨?_, rfl, rfl, hlen, hnew, hdel, htail0⟩
        rw [hnew]
        exact hset
      · left
        rw [tpsOf_set_range, getD_set_self default _ t.page_ranges rp hlen]
        unfold Table.tpsOf PageRange.tpsAt
        rw [show ({ t.page_ranges.getD rp default with
            tps := dictSet (t.page_ranges.getD rp default).tps
              (offset / RECORDS_PER_PAGE)
              (((t.page_ranges.getD rp default).read_base_record offset).getD
                INDIRECTION_COLUMN 0) } : PageRange).tps =
          dictSet (t.page_ranges.getD rp default).tps
            (offset / RECORDS_PER_PAGE)
            (((t.page_ranges.getD rp default).read_base_record offset).getD
              INDIRECTION_COLUMN 0) from rfl]
        rw [dictGet_dictSet_ne _ _ _ _ hpp2]
    · left
      rw [tpsOf_set_range, getD_set_ne default _ t.page_ranges range_idx rp
        (fun hh => hrp hh.symm)]
      rfl
  · exact Or.inl rfl

theorem read_base_of_view_eq {t t2 : Table} (h : t2.View = t.View)
    (i offset : Nat) :
    (t2.page_ranges.getD i default).read_base_record offset =
      (t.page_ranges.getD i default).read_base_record offset := by
  have hv := storeView_getD_of_view h i
  have hbc : (t2.page_ranges.getD i default).base_cols =
      (t.page_ranges.getD i default).base_cols :=
    congrArg (fun v => v.2.2.1) hv
  simp only [PageRange.read_base_record, hbc]

theorem mergeRid_tps_step (t0 acc : Table) (range_idx rid offset : Nat)
    (hWF : t0.WF)
    (hok : dictGet t0.page_directory rid = some (range_idx, false, offset))
    (h : TpsStep t0 acc) : TpsStep t0 (acc.mergeRid range_idx rid offset) := by
  obtain ⟨hview, htps⟩ := h
  refine ⟨(mergeRid_view acc range_idx rid offset).trans hview, ?_⟩
  intro rp pp
  rcases mergeRid_tps_cases acc range_idx rid offset rp pp with heq |
    ⟨hlt2, hrp, hpp, hlen2, hval, hb, hi⟩
  · rw [heq]
    exact htps rp pp
  · subst hrp
    subst hpp
    have hread := read_base_of_view_eq hview rp offset
    have hmem := dictGet_mem t0.page_directory rid _ hok
    have hwfd := hWF.2.2.2.1 _ hmem
    have hofft : offset <
        (t0.page_ranges.getD rp default).num_base_records :=
      hwfd.2.2.2.2 rfl
    have hlen0 : rp < t0.page_ranges.length := hwfd.2.2.1
    have hmemr :=
      tail_mem_reachable t0 rp offset hlen0 hofft
        (by rw [← hread]; exact hb) (by rw [← hread]; exact hi)
    rcases htps rp (offset / RECORDS_PER_PAGE) with he | ⟨hlt1, _⟩
    · right
      refine ⟨?_, ?_⟩
      · rw [← he]
        exact hlt2
      · rw [hval, hread]
        exact hmemr
    · right
      refine ⟨lt_trans hlt1 hlt2, ?_⟩
      rw [hval, hread]
      exact hmemr

theorem groupAdd_ok (t : Table) (k : Nat) (v : Nat × Nat)
    (hv : dictGet t.page_directory v.1 = some (k, false, v.2)) :
    ∀ groups, GroupsOK t groups → GroupsOK t (groupAdd groups k v) := by
  intro groups
  induction groups with
  | nil =>
    intro _ g hg ro hro
    simp only [groupAdd, List.mem_singleton] at hg
    subst hg
    simp only [List.mem_singleton] at hro
    subst hro
    exact hv
  | cons g0 tl ih =>
    obtain ⟨k0, l0⟩ := g0
    intro hok g hg ro hro
    by_cases hk : k0 = k
    · rw [groupAdd, if_pos hk] at hg
      rcases List.mem_cons.mp hg with hg | hg
      · subst hg
        rcases List.mem_append.mp hro with hro | hro
        · exact hok (k0, l0) (List.mem_cons_self _ _) ro hro
        · simp only [List.mem_singleton] at hro
          subst hro
          rw [hk]
          exact hv
      · exact hok g (List.mem_cons_of_mem _ hg) ro hro
    · rw [groupAdd, if_neg hk] at hg
      rcases List.mem_cons.mp hg with hg | hg
      · subst hg
        exact hok (k0, l0) (List.mem_cons_self _ _) ro hro
      · exact ih (fun g2 hg2 => hok g2 (List.mem_cons_of_mem _ hg2)) g hg ro hro

theorem buildGroups_ok_aux (t : Table) :
    ∀ (rids : List Nat) (acc : List (Nat × List (Nat × Nat))), GroupsOK t acc →
      GroupsOK t (rids.foldl
        (fun groups rid =>
          match dictGet t.page_directory rid with
          | none => groups
          | some (range_idx, is_tail, offset) =>
            if is_tail then groups else groupAdd groups range_idx (rid, offset))
        acc) := by
  intro rids
  induction rids with
  | nil => intro acc h; exact h
  | cons r tl ih =>
    intro acc h
    rw [List.foldl_cons]
    apply ih
    show GroupsOK t
      (match dictGet t.page_directory r with
       | none => acc
       | some (range_idx, is_tail, offset) =>
         if is_tail then acc else groupAdd acc range_idx (r, offset))
    cases hloc : dictGet t.page_directory r with
    | none => exact h
    | some loc =>
      obtain ⟨range_idx, is_tail, offset⟩ := loc
      cases is_tail with
      | true => exact h
      | false => exact groupAdd_ok t range_idx (r, offset) hloc acc h

theorem buildGroups_ok (t : Table) (rids : List Nat) :
    GroupsOK t (t.buildGroups rids) :=
  buildGroups_ok_aux t rids [] (fun g hg => by simp at hg)

theorem foldl_mergeRid_tps (t0 : Table) (hWF : t0.WF) (ridx : Nat) :
    ∀ (l : List (Nat × Nat)) (acc : Table),
      (∀ ro ∈ l, dictGet t0.page_directory ro.1 = some (ridx, false, ro.2)) →
      TpsStep t0 acc →
      TpsStep t0 (l.foldl (fun acc2 ro => acc2.mergeRid ridx ro.1 ro.2) acc) := by
  intro l
  induction l with
  | nil => intro acc _ h; exact h
  | cons a tl ih =>
    intro acc hl h
    rw [List.foldl_cons]
    refine ih _ (fun ro hro => hl ro (List.mem_cons_of_mem a hro)) ?_
    exact mergeRid_tps_step t0 acc ridx a.1 a.2 hWF
      (hl a (List.mem_cons_self a tl)) h

theorem foldl_groups_tps (t0 : Table) (hWF : t0.WF) (n_ranges : Nat) :
    ∀ (groups : List (Nat × List (Nat × Nat))) (acc : Table),
      GroupsOK t0 groups → TpsStep t0 acc →
      TpsStep t0 (groups.foldl
        (fun acc g =>
          if n_ranges ≤ g.1 then acc
          else g.2.foldl (fun acc2 ro => acc2.mergeRid g.1 ro.1 ro.2) acc)
        acc) := by
  intro groups
  induction groups with
  | nil => intro acc _ h; exact h
  | cons g tl ih =>
    intro acc hok h
    rw [List.foldl_cons]
    refine ih _ (fun g2 hg2 => hok g2 (List.mem_cons_of_mem _ hg2)) ?_
    show TpsStep t0
      (if n_ranges ≤ g.1 then acc
       else g.2.foldl (fun acc2 ro => acc2.mergeRid g.1 ro.1 ro.2) acc)
    by_cases hg : n_ranges ≤ g.1
    · rw [if_pos hg]
      exact h
    · rw [if_neg hg]
      exact foldl_mergeRid_tps t0 hWF g.1 g.2 acc
        (fun ro hro => hok g (List.mem_cons_self _ _) ro hro) h

theorem mergePass_tps (t : Table) (hWF : t.WF) : TpsStep t t.mergePass := by
  unfold Table.mergePass
  by_cases he : t.rids_to_merge.isEmpty
  · rw [if_pos he]
    exact ⟨rfl, fun rp pp => Or.inl rfl⟩
  · rw [if_neg he]
    refine foldl_groups_tps t hWF _ _ _ ?_ ⟨rfl, fun rp pp => Or.inl rfl⟩
    exact buildGroups_ok
      { t with rids_to_merge := [] } t.rids_to_merge

/-- C6: over a merge pass every base page's TPS is non-decreasing; a
TPS word changes only by strictly increasing to the merged tail RID,
which is reachable from a live base record on that very page; and
consequently the invariant "TPS never exceeds the largest reachable
tail RID of its page" is preserved by merging. -/
theorem merge_tps_monotone (t : Table) (hWF : t.WF) :
    (∀ rp pp, t.tpsOf rp pp ≤ t.merge.tpsOf rp pp) ∧
    (∀ rp pp, t.merge.tpsOf rp pp = t.tpsOf rp pp ∨
       (t.tpsOf rp pp < t.merge.tpsOf rp pp ∧
        t.merge.tpsOf rp pp ∈ t.reachableTailsOnPage rp pp)) ∧
    ((∀ rp pp, t.tpsOf rp pp ≤ t.maxReachableTail rp pp) →
       ∀ rp pp, t.merge.tpsOf rp pp ≤ t.maxReachableTail rp pp) := by
  have hstep : TpsStep t t.merge := by
    have h := mergePass_tps t hWF
    exact ⟨h.1, h.2⟩
  obtain ⟨hv, htps⟩ := hstep
  refine ⟨?_, htps, ?_⟩
  · intro rp pp
    rcases htps rp pp with h | ⟨h, _⟩
    · omega
    · omega
  · intro hb rp pp
    rcases htps rp pp with h | ⟨_, hmem⟩
    · rw [h]
      exact hb rp pp
    · exact mem_le_foldr_max _ _ hmem

theorem merge_tps_monotone_witness :
    tableS2b.WF ∧ tableS2b.merge.tpsOf 0 0 ≤ tableS2b.maxReachableTail 0 0 := by
  have hWF : tableS2b.WF := by decide
  have hz : ∀ rp pp, tableS2b.tpsOf rp pp = 0 := by
    intro rp pp
    cases rp with
    | zero => rfl
    | succ n => rfl
  exact ⟨hWF, (merge_tps_monotone tableS2b hWF).2.2
    (fun rp pp => by rw [hz]; exact Nat.zero_le _) 0 0⟩

/-! ### Read-after-write lemmas for the column stores (claims C2, C3) -/

theorem rowAt_appendEach_last :
    ∀ (cols : List (List Nat)) (rec : List Nat) (n : Nat),
      cols.length = rec.length → (∀ c ∈ cols, c.length = n) →
      rowAt (appendEach cols rec) n = rec := by
  intro cols
  induction cols with
  | nil =>
    intro rec n hlen _
    cases rec with
    | nil => rfl
    | cons v vs => simp at hlen
  | cons c cs ih =>
    intro rec n hlen hall
    cases rec with
    | nil => simp at hlen
    | cons v vs =>
      have hc : c.length = n := hall c (List.mem_cons_self c cs)
      have h1 : (c ++ [v]).getD n 0 = v := by
        rw [getD_append c [v] 0 n, if_neg (by omega)]
        have : n - c.length = 0 := by omega
        rw [this]
        rfl
      show (c ++ [v]).getD n 0 :: rowAt (appendEach cs vs) n = v :: vs
      rw [h1, ih vs n (by simpa using hlen)
        (fun c2 hc2 => hall c2 (List.mem_cons_of_mem c hc2))]

theorem rowAt_set_col :
    ∀ (cols : List (List Nat)) (col off v2 : Nat),
      off < (cols.getD col []).length →
      rowAt (cols.set col ((cols.getD col []).set off v2)) off =
        (rowAt cols off).set col v2 := by
  intro cols
  induction cols with
  | nil =>
    intro col off v2 h
    cases col <;> simp at h
  | cons c cs ih =>
    intro col off v2 h
    cases col with
    | zero =>
      rw [List.getD_cons_zero] at h
      show (c.set off v2).getD off 0 :: rowAt cs off =
        ((c.getD off 0 :: rowAt cs off).set 0 v2)
      rw [getD_set_self 0 v2 c off h]
      rfl
    | succ col2 =>
      rw [List.getD_cons_succ] at h
      show c.getD off 0 :: rowAt (cs.set col2 ((cs.getD col2 []).set off v2)) off =
        (c.getD off 0 :: rowAt cs off).set (col2 + 1) v2
      rw [ih col2 off v2 h]
      rfl

theorem rowAt_set_col_ne :
    ∀ (cols : List (List Nat)) (col off off2 v2 : Nat), off2 ≠ off →
      rowAt (cols.set col ((cols.getD col []).set off v2)) off2 =
        rowAt cols off2 := by
  intro cols
  induction cols with
  | nil => intro col off off2 v2 _; cases col <;> rfl
  | cons c cs ih =>
    intro col off off2 v2 hne
    cases col with
    | zero =>
      show (c.set off v2).getD off2 0 :: rowAt cs off2 =
        c.getD off2 0 :: rowAt cs off2
      rw [getD_set_ne 0 v2 c off off2 (fun hh => hne hh.symm)]
    | succ col2 =>
      show c.getD off2 0 :: rowAt (cs.set col2 ((cs.getD col2 []).set off v2)) off2 =
        c.getD off2 0 :: rowAt cs off2
      rw [ih col2 off off2 v2 hne]

theorem mergedUserCols_length (c : List (Option Nat)) (v : List Nat) (n : Nat) :
    (mergedUserCols c v n).length = n := by
  simp [mergedUserCols]

theorem read_record_some_rid_ne (t : Table) (rid : Nat) (base : List Nat)
    (h : t.read_record rid = some base) : base.getD RID_COLUMN 0 ≠ 0 := by
  unfold Table.read_record at h
  cases hloc : dictGet t.page_directory rid with
  | none => rw [hloc] at h; exact absurd h (by simp)
  | some loc =>
    rw [hloc] at h
    obtain ⟨range_idx, is_tail, offset⟩ := loc
    simp only [readLoc] at h
    cases hget : t.page_ranges.get? range_idx with
    | none => rw [hget] at h; exact absurd h (by simp)
    | some pr =>
      rw [hget] at h
      simp only at h
      by_cases hz : (if is_tail then pr.read_tail_record offset
          else pr.read_base_record offset).getD RID_COLUMN 0 = DELETED_RID
      · rw [if_pos hz] at h
        exact absurd h (by simp)
      · rw [if_neg hz] at h
        injection h with h2
        rw [← h2]
        exact hz

theorem get_or_create_eq_reuse (t : Table) (i : Nat)
    (hcur : t.current_page_range = some i)
    (hcap : (t.page_ranges.getD i default).has_capacity) :
    t.get_or_create_page_range = (t, i) := by
  unfold Table.get_or_create_page_range
  rw [hcur]
  show (if (t.page_ranges.getD i default).has_capacity = true then
      (t, (Option.some i).getD 0)
    else ({ t with page_ranges := t.page_ranges ++ [t.newPageRange],
                   current_page_range := some t.page_ranges.length },
          t.page_ranges.length)) = (t, i)
  rw [if_pos hcap]
  rfl

theorem get_or_create_eq_new_none (t : Table)
    (hcur : t.current_page_range = none) :
    t.get_or_create_page_range =
      ({ t with page_ranges := t.page_ranges ++ [t.newPageRange],
                current_page_range := some t.page_ranges.length },
       t.page_ranges.length) := by
  unfold Table.get_or_create_page_range
  rw [hcur]
  rfl

theorem get_or_create_eq_new_full (t : Table) (i : Nat)
    (hcur : t.current_page_range = some i)
    (hcap : ¬(t.page_ranges.getD i default).has_capacity) :
    t.get_or_create_page_range =
      ({ t with page_ranges := t.page_ranges ++ [t.newPageRange],
                current_page_range := some t.page_ranges.length },
       t.page_ranges.length) := by
  unfold Table.get_or_create_page_range
  rw [hcur]
  show (if (t.page_ranges.getD i default).has_capacity = true then
      (t, (Option.some i).getD 0)
    else ({ t with page_ranges := t.page_ranges ++ [t.newPageRange],
                   current_page_range := some t.page_ranges.length },
          t.page_ranges.length)) =
      ({ t with page_ranges := t.page_ranges ++ [t.newPageRange],
                current_page_range := some t.page_ranges.length },
       t.page_ranges.length)
  rw [if_neg hcap]

theorem append_new_getD_last (t : Table) :
    (t.page_ranges ++ [t.newPageRange]).getD t.page_ranges.length default =
      t.newPageRange := by
  rw [getD_append, if_neg (by omega)]
  simp

theorem append_new_getD_lt (t : Table) (j : Nat) (hj : j < t.page_ranges.length) :
    (t.page_ranges ++ [t.newPageRange]).getD j default =
      t.page_ranges.getD j default := by
  rw [getD_append, if_pos hj]

theorem append_new_getD_ne (t : Table) (j : Nat) (hj : j ≠ t.page_ranges.length) :
    (t.page_ranges ++ [t.newPageRange]).getD j default =
      t.page_ranges.getD j default := by
  by_cases hlt : j < t.page_ranges.length
  · exact append_new_getD_lt t j hlt
  · rw [getD_append, if_neg hlt]
    rw [getD_of_length_le default t.page_ranges j (by omega)]
    have h1 : 1 ≤ j - t.page_ranges.length := by omega
    rw [getD_of_length_le default [t.newPageRange] _ (by simpa using h1)]

theorem got_spec_id (t : Table) (hWF : t.WF) (i : Nat)
    (hi : i < t.page_ranges.length) : GotSpec t t i := by
  have hwf := hWF.2.2.1 (t.page_ranges.getD i default) (getD_mem default _ i hi)
  exact ⟨rfl, rfl, rfl, rfl, rfl, hi, le_refl _, fun j _ => rfl, fun j _ => rfl,
    hwf.1, hwf.2.2.1, hwf.2.1, hwf.2.2.2, rfl, rfl⟩

theorem got_spec_new (t : Table) :
    GotSpec t
      { t with page_ranges := t.page_ranges ++ [t.newPageRange],
               current_page_range := some t.page_ranges.length }
      t.page_ranges.length := by
  refine ⟨rfl, rfl, rfl, rfl, rfl, by simp, by simp,
    fun j hj => append_new_getD_lt t j hj,
    fun j hj => append_new_getD_ne t j hj, ?_, ?_, ?_, ?_, ?_, ?_⟩
  · show ((t.page_ranges ++ [t.newPageRange]).getD t.page_ranges.length
        default).base_cols.length = 4 + t.num_columns
    rw [append_new_getD_last t]
    exact List.length_replicate _ _
  · show ∀ c ∈ ((t.page_ranges ++ [t.newPageRange]).getD t.page_ranges.length
        default).base_cols,
      c.length = ((t.page_ranges ++ [t.newPageRange]).getD t.page_ranges.length
        default).num_base_records
    rw [append_new_getD_last t]
    intro c hc
    have hc' : c = ([] : List Nat) := List.eq_of_mem_replicate hc
    rw [hc']
    rfl
  · show ((t.page_ranges ++ [t.newPageRange]).getD t.page_ranges.length
        default).tail_cols.length = 4 + t.num_columns
    rw [append_new_getD_last t]
    exact List.length_replicate _ _
  · show ∀ c ∈ ((t.page_ranges ++ [t.newPageRange]).getD t.page_ranges.length
        default).tail_cols,
      c.length = ((t.page_ranges ++ [t.newPageRange]).getD t.page_ranges.length
        default).num_tail_records
    rw [append_new_getD_last t]
    intro c hc
    have hc' : c = ([] : List Nat) := List.eq_of_mem_replicate hc
    rw [hc']
    rfl
  · show ((t.page_ranges ++ [t.newPageRange]).getD t.page_ranges.length
        default).num_base_records =
      (t.page_ranges.getD t.page_ranges.length default).num_base_records
    rw [append_new_getD_last t,
      getD_of_length_le default t.page_ranges t.page_ranges.length (le_refl _)]
    rfl
  · show ((t.page_ranges ++ [t.newPageRange]).getD t.page_ranges.length
        default).num_tail_records =
      (t.page_ranges.getD t.page_ranges.length default).num_tail_records
    rw [append_new_getD_last t,
      getD_of_length_le default t.page_ranges t.page_ranges.length (le_refl _)]
    rfl

theorem get_or_create_spec (t : Table) (hWF : t.WF) :
    GotSpec t t.get_or_create_page_range.1 t.get_or_create_page_range.2 := by
  have hcpr := hWF.2.2.2.2.1
  cases hcur : t.current_page_range with
  | some i =>
    have hi : i < t.page_ranges.length := by
      unfold optIdxOK at hcpr
      rw [hcur] at hcpr
      simpa using hcpr
    by_cases hcap : (t.page_ranges.getD i default).has_capacity
    · rw [get_or_create_eq_reuse t i hcur hcap]
      exact got_spec_id t hWF i hi
    · rw [get_or_create_eq_new_full t i hcur hcap]
      exact got_spec_new t
  | none =>
    rw [get_or_create_eq_new_none t hcur]
    exact got_spec_new t

theorem got_spec_ctpr (t t2 : Table) (idx : Nat) (o : Option Nat)
    (h : GotSpec t t2 idx) :
    GotSpec t { t2 with current_tail_page_range := o } idx := h

theorem pick_tail_eq_reuse (t : Table) (i : Nat)
    (hcur : t.current_tail_page_range = some i)
    (hcap : ¬RECORDS_PER_PAGE * 16 ≤
      (t.page_ranges.getD i default).num_tail_records) :
    t.pick_tail_range = (t, i) := by
  unfold Table.pick_tail_range
  rw [hcur]
  show (if decide (RECORDS_PER_PAGE * 16 ≤
        (t.page_ranges.getD i default).num_tail_records) = true then
      ({ t.get_or_create_page_range.1 with
          current_tail_page_range := some t.get_or_create_page_range.2 },
        t.get_or_create_page_range.2)
    else (t, (Option.some i).getD 0)) = (t, i)
  rw [decide_eq_false hcap]
  rfl

theorem pick_tail_eq_new_none (t : Table)
    (hcur : t.current_tail_page_range = none) :
    t.pick_tail_range =
      ({ t.get_or_create_page_range.1 with
          current_tail_page_range := some t.get_or_create_page_range.2 },
        t.get_or_create_page_range.2) := by
  unfold Table.pick_tail_range
  rw [hcur]
  rfl

theorem pick_tail_eq_new_full (t : Table) (i : Nat)
    (hcur : t.current_tail_page_range = some i)
    (hcap : RECORDS_PER_PAGE * 16 ≤
      (t.page_ranges.getD i default).num_tail_records) :
    t.pick_tail_range =
      ({ t.get_or_create_page_range.1 with
          current_tail_page_range := some t.get_or_create_page_range.2 },
        t.get_or_create_page_range.2) := by
  unfold Table.pick_tail_range
  rw [hcur]
  show (if decide (RECORDS_PER_PAGE * 16 ≤
        (t.page_ranges.getD i default).num_tail_records) = true then
      ({ t.get_or_create_page_range.1 with
          current_tail_page_range := some t.get_or_create_page_range.2 },
        t.get_or_create_page_range.2)
    else (t, (Option.some i).getD 0)) =
      ({ t.get_or_create_page_range.1 with
          current_tail_page_range := some t.get_or_create_page_range.2 },
        t.get_or_create_page_range.2)
  rw [decide_eq_true hcap]
  rfl

theorem pick_tail_spec (t : Table) (hWF : t.WF) :
    GotSpec t t.pick_tail_range.1 t.pick_tail_range.2 := by
  cases hcur : t.current_tail_page_range with
  | none =>
    rw [pick_tail_eq_new_none t hcur]
    exact got_spec_ctpr t _ _ _ (get_or_create_spec t hWF)
  | some i =>
    by_cases hcap : RECORDS_PER_PAGE * 16 ≤
        (t.page_ranges.getD i default).num_tail_records
    · rw [pick_tail_eq_new_full t i hcur hcap]
      exact got_spec_ctpr t _ _ _ (get_or_create_spec t hWF)
    · rw [pick_tail_eq_reuse t i hcur hcap]
      have hi : i < t.page_ranges.length := by
        have h := hWF.2.2.2.2.2
        unfold optIdxOK at h
        rw [hcur] at h
        simpa using h
      exact got_spec_id t hWF i hi

theorem wf_record_modification (t : Table) (rid : Nat) (ty : ModType)
    (od nd : Option (List Nat)) (h : t.WF) :
    (t.record_modification rid ty od nd).WF := h

theorem wf_bump_next (t : Table) (hWF : t.WF) (n : Nat) (hn : t.next_rid ≤ n) :
    Table.WF { t with next_rid := n } := by
  obtain ⟨h1, h2, h3, h4, h5, h6⟩ := hWF
  refine ⟨h1, ?_, h3, ?_, h5, h6⟩
  · show 1 ≤ n
    omega
  · intro kv hkv
    obtain ⟨a, b, c, d, e⟩ := h4 kv hkv
    refine ⟨a, ?_, c, d, e⟩
    show kv.1 < n
    omega

theorem indexInsert_frame (t : Table) (c v r : Nat) (t2 : Table)
    (h : t.indexInsert c v r = some t2) :
    t2.page_directory = t.page_directory ∧ t2.page_ranges = t.page_ranges ∧
    t2.next_rid = t.next_rid ∧ t2.num_columns = t.num_columns := by
  unfold Table.indexInsert at h
  cases h1 : t.indices.getD c none with
  | none =>
    rw [h1] at h
    injection h with h
    rw [← h]
    exact ⟨rfl, rfl, rfl, rfl⟩
  | some ci =>
    rw [h1] at h
    simp only at h
    cases h2 : ci.insertVal v r with
    | none => rw [h2] at h; exact absurd h (by simp)
    | some ci2 =>
      rw [h2] at h
      injection h with h
      rw [← h]
      exact ⟨rfl, rfl, rfl, rfl⟩

theorem indexDelete_frame (t : Table) (c v r : Nat) :
    (t.indexDelete c v r).page_directory = t.page_directory ∧
    (t.indexDelete c v r).page_ranges = t.page_ranges ∧
    (t.indexDelete c v r).next_rid = t.next_rid ∧
    (t.indexDelete c v r).num_columns = t.num_columns := by
  unfold Table.indexDelete
  cases h1 : t.indices.getD c none with
  | none => exact ⟨rfl, rfl, rfl, rfl⟩
  | some ci => exact ⟨rfl, rfl, rfl, rfl⟩

theorem indexUpdate_frame (t : Table) (c o n r : Nat) :
    (t.indexUpdate c o n r).1.page_directory = t.page_directory ∧
    (t.indexUpdate c o n r).1.page_ranges = t.page_ranges ∧
    (t.indexUpdate c o n r).1.next_rid = t.next_rid ∧
    (t.indexUpdate c o n r).1.num_columns = t.num_columns := by
  have hd := indexDelete_frame t c o r
  cases h1 : (t.indexDelete c o r).indexInsert c n r with
  | none =>
    have heq : t.indexUpdate c o n r = (t.indexDelete c o r, false) := by
      unfold Table.indexUpdate
      show (match (t.indexDelete c o r).indexInsert c n r with
        | some t2 => (t2, true)
        | none => (t.indexDelete c o r, false)) = (t.indexDelete c o r, false)
      rw [h1]
    rw [heq]
    exact hd
  | some t2 =>
    have h2 := indexInsert_frame _ c n r t2 h1
    have heq : t.indexUpdate c o n r = (t2, true) := by
      unfold Table.indexUpdate
      show (match (t.indexDelete c o r).indexInsert c n r with
        | some t2 => (t2, true)
        | none => (t.indexDelete c o r, false)) = (t2, true)
      rw [h1]
    rw [heq]
    exact ⟨h2.1.trans hd.1, h2.2.1.trans hd.2.1, h2.2.2.1.trans hd.2.2.1,
      h2.2.2.2.trans hd.2.2.2⟩

theorem updIdxLoop_frame (rid : Nat) :
    ∀ (l : List (Nat × Nat × Nat)) (t : Table),
      (t.updIdxLoop rid l).1.page_directory = t.page_directory ∧
      (t.updIdxLoop rid l).1.page_ranges = t.page_ranges ∧
      (t.updIdxLoop rid l).1.next_rid = t.next_rid ∧
      (t.updIdxLoop rid l).1.num_columns = t.num_columns := by
  intro l
  induction l with
  | nil => intro t; exact ⟨rfl, rfl, rfl, rfl⟩
  | cons x rest ih =>
    intro t
    obtain ⟨col, old, new⟩ := x
    cases h1 : t.indices.getD col none with
    | none =>
      have heq : t.updIdxLoop rid ((col, old, new) :: rest) =
          t.updIdxLoop rid rest := by
        show (match t.indices.getD col none with
          | none => t.updIdxLoop rid rest
          | some _ =>
            let r := t.indexUpdate col old new rid
            if r.2 then r.1.updIdxLoop rid rest else (r.1, false)) =
          t.updIdxLoop rid rest
        rw [h1]
      rw [heq]
      exact ih t
    | some ci =>
      have hiu := indexUpdate_frame t col old new rid
      by_cases hr : (t.indexUpdate col old new rid).2
      · have heq : t.updIdxLoop rid ((col, old, new) :: rest) =
            (t.indexUpdate col old new rid).1.updIdxLoop rid rest := by
          show (match t.indices.getD col none with
            | none => t.updIdxLoop rid rest
            | some _ =>
              let r := t.indexUpdate col old new rid
              if r.2 then r.1.updIdxLoop rid rest else (r.1, false)) =
            (t.indexUpdate col old new rid).1.updIdxLoop rid rest
          rw [h1]
          show (if (t.indexUpdate col old new rid).2 = true then
              (t.indexUpdate col old new rid).1.updIdxLoop rid rest
            else ((t.indexUpdate col old new rid).1, false)) =
            (t.indexUpdate col old new rid).1.updIdxLoop rid rest
          rw [if_pos hr]
        rw [heq]
        have hih := ih (t.indexUpdate col old new rid).1
        exact ⟨hih.1.trans hiu.1, hih.2.1.trans hiu.2.1,
          hih.2.2.1.trans hiu.2.2.1, hih.2.2.2.trans hiu.2.2.2⟩
      · have heq : t.updIdxLoop rid ((col, old, new) :: rest) =
            ((t.indexUpdate col old new rid).1, false) := by
          show (match t.indices.getD col none with
            | none => t.updIdxLoop rid rest
            | some _ =>
              let r := t.indexUpdate col old new rid
              if r.2 then r.1.updIdxLoop rid rest else (r.1, false)) =
            ((t.indexUpdate col old new rid).1, false)
          rw [h1]
          show (if (t.indexUpdate col old new rid).2 = true then
              (t.indexUpdate col old new rid).1.updIdxLoop rid rest
            else ((t.indexUpdate col old new rid).1, false)) =
            ((t.indexUpdate col old new rid).1, false)
          rw [if_neg hr]
        rw [heq]
        exact hiu

theorem get?_some_lt {α : Type} :
    ∀ (l : List α) (i : Nat) (a : α), l.get? i = some a → i < l.length := by
  intro l
  induction l with
  | nil => intro i a h; simp at h
  | cons x xs ih =>
    intro i a h
    cases i with
    | zero => simp
    | succ j =>
      have := ih j a h
      simp
      omega

theorem readLoc_tail (ranges : List PageRange) (i off : Nat)
    (hi : i < ranges.length)
    (hz : ¬((ranges.getD i default).read_tail_record off).getD RID_COLUMN 0 =
      DELETED_RID) :
    readLoc ranges (i, true, off) =
      some ((ranges.getD i default).read_tail_record off) := by
  show (match ranges.get? i with
    | none => none
    | some pr =>
      if (pr.read_tail_record off).getD RID_COLUMN 0 = DELETED_RID then none
      else some (pr.read_tail_record off)) =
    some ((ranges.getD i default).read_tail_record off)
  rw [get?_eq_some_getD default ranges i hi]
  show (if ((ranges.getD i default).read_tail_record off).getD RID_COLUMN 0 =
      DELETED_RID then none
    else some ((ranges.getD i default).read_tail_record off)) = _
  rw [if_neg hz]

theorem readLoc_base (ranges : List PageRange) (i off : Nat)
    (hi : i < ranges.length)
    (hz : ¬((ranges.getD i default).read_base_record off).getD RID_COLUMN 0 =
      DELETED_RID) :
    readLoc ranges (i, false, off) =
      some ((ranges.getD i default).read_base_record off) := by
  show (match ranges.get? i with
    | none => none
    | some pr =>
      if (pr.read_base_record off).getD RID_COLUMN 0 = DELETED_RID then none
      else some (pr.read_base_record off)) =
    some ((ranges.getD i default).read_base_record off)
  rw [get?_eq_some_getD default ranges i hi]
  show (if ((ranges.getD i default).read_base_record off).getD RID_COLUMN 0 =
      DELETED_RID then none
    else some ((ranges.getD i default).read_base_record off)) = _
  rw [if_neg hz]

theorem readLoc_base_inv (ranges : List PageRange) (i off : Nat) (rec : List Nat)
    (h : readLoc ranges (i, false, off) = some rec) :
    rec = (ranges.getD i default).read_base_record off ∧
    ¬rec.getD RID_COLUMN 0 = DELETED_RID := by
  have h1 : (match ranges.get? i with
    | none => none
    | some pr =>
      if (pr.read_base_record off).getD RID_COLUMN 0 = DELETED_RID then none
      else some (pr.read_base_record off)) = some rec := h
  cases hg : ranges.get? i with
  | none => rw [hg] at h1; exact absurd h1 (by simp)
  | some pr =>
    rw [hg] at h1
    have hil : i < ranges.length := get?_some_lt ranges i pr hg
    have hpr : pr = ranges.getD i default := by
      rw [get?_eq_some_getD default ranges i hil] at hg
      injection hg with hg2
      exact hg2.symm
    have h2 : (if (pr.read_base_record off).getD RID_COLUMN 0 = DELETED_RID
        then none else some (pr.read_base_record off)) = some rec := h1
    by_cases hz : (pr.read_base_record off).getD RID_COLUMN 0 = DELETED_RID
    · rw [if_pos hz] at h2
      exact absurd h2 (by simp)
    · rw [if_neg hz] at h2
      injection h2 with h3
      subst hpr
      exact ⟨h3.symm, by rw [h3] at hz; exact hz⟩

theorem read_record_eq (t : Table) (rid : Nat) (loc : Loc)
    (h : dictGet t.page_directory rid = some loc) :
    t.read_record rid = readLoc t.page_ranges loc := by
  unfold Table.read_record
  rw [h]

theorem ubc_num_tail (pr : PageRange) (o c vv : Nat) :
    (pr.update_base_column o c vv).num_tail_records = pr.num_tail_records := rfl

theorem ubc_num_base (pr : PageRange) (o c vv : Nat) :
    (pr.update_base_column o c vv).num_base_records = pr.num_base_records := rfl

theorem ubc_tail_cols (pr : PageRange) (o c vv : Nat) :
    (pr.update_base_column o c vv).tail_cols = pr.tail_cols := rfl

theorem ubc_base_cols (pr : PageRange) (o c vv : Nat) :
    (pr.update_base_column o c vv).base_cols =
      pr.base_cols.set c ((pr.base_cols.getD c []).set o vv) := rfl

theorem wtr_num_tail (pr : PageRange) (rec : List Nat) :
    ((pr.write_tail_record rec).1).num_tail_records = pr.num_tail_records + 1 :=
  rfl

theorem wtr_num_base (pr : PageRange) (rec : List Nat) :
    ((pr.write_tail_record rec).1).num_base_records = pr.num_base_records := rfl

theorem wtr_tail_cols (pr : PageRange) (rec : List Nat) :
    ((pr.write_tail_record rec).1).tail_cols = appendEach pr.tail_cols rec := rfl

theorem wtr_base_cols (pr : PageRange) (rec : List Nat) :
    ((pr.write_tail_record rec).1).base_cols = pr.base_cols := rfl

theorem t8_pd (u : Table) (rid : Nat) :
    (if rid ∈ u.rids_to_merge then u
     else { u with rids_to_merge := u.rids_to_merge ++ [rid] }).page_directory =
      u.page_directory := by
  by_cases h : rid ∈ u.rids_to_merge
  · rw [if_pos h]
  · rw [if_neg h]

theorem t8_pr (u : Table) (rid : Nat) :
    (if rid ∈ u.rids_to_merge then u
     else { u with rids_to_merge := u.rids_to_merge ++ [rid] }).page_ranges =
      u.page_ranges := by
  by_cases h : rid ∈ u.rids_to_merge
  · rw [if_pos h]
  · rw [if_neg h]

theorem updFinish_frame (t : Table) (rid : Nat) (l : List (Nat × Nat × Nat)) :
    (let ur := t.updIdxLoop rid l
     if ur.2 then
       (let t8 := if rid ∈ ur.1.rids_to_merge then ur.1
          else { ur.1 with rids_to_merge := ur.1.rids_to_merge ++ [rid] }
        ({ t8 with updates_since_merge := t8.updates_since_merge + 1 }, some true))
     else (ur.1, none)).1.page_directory = t.page_directory ∧
    (let ur := t.updIdxLoop rid l
     if ur.2 then
       (let t8 := if rid ∈ ur.1.rids_to_merge then ur.1
          else { ur.1 with rids_to_merge := ur.1.rids_to_merge ++ [rid] }
        ({ t8 with updates_since_merge := t8.updates_since_merge + 1 }, some true))
     else (ur.1, none)).1.page_ranges = t.page_ranges := by
  have hfr := updIdxLoop_frame rid l t
  by_cases h2 : (t.updIdxLoop rid l).2
  · have he : (let ur := t.updIdxLoop rid l
        if ur.2 then
          (let t8 := if rid ∈ ur.1.rids_to_merge then ur.1
             else { ur.1 with rids_to_merge := ur.1.rids_to_merge ++ [rid] }
           ({ t8 with updates_since_merge := t8.updates_since_merge + 1 },
            some true))
        else (ur.1, none)) =
        ({ (if rid ∈ (t.updIdxLoop rid l).1.rids_to_merge then
              (t.updIdxLoop rid l).1
            else { (t.updIdxLoop rid l).1 with
              rids_to_merge := (t.updIdxLoop rid l).1.rids_to_merge ++ [rid] })
           with
           updates_since_merge :=
             (if rid ∈ (t.updIdxLoop rid l).1.rids_to_merge then
                (t.updIdxLoop rid l).1
              else { (t.updIdxLoop rid l).1 with
                rids_to_merge :=
                  (t.updIdxLoop rid l).1.rids_to_merge ++ [rid] }).updates_since_merge
               + 1 },
         some true) := by
      show (if (t.updIdxLoop rid l).2 = true then
          ({ (if rid ∈ (t.updIdxLoop rid l).1.rids_to_merge then
                (t.updIdxLoop rid l).1
              else { (t.updIdxLoop rid l).1 with
                rids_to_merge := (t.updIdxLoop rid l).1.rids_to_merge ++ [rid] })
             with
             updates_since_merge :=
               (if rid ∈ (t.updIdxLoop rid l).1.rids_to_merge then
                  (t.updIdxLoop rid l).1
                else { (t.updIdxLoop rid l).1 with
                  rids_to_merge :=
                    (t.updIdxLoop rid l).1.rids_to_merge ++ [rid] }).updates_since_merge
                 + 1 },
           some true)
        else ((t.updIdxLoop rid l).1, none)) = _
      rw [if_pos h2]
    rw [he]
    constructor
    · show (if rid ∈ (t.updIdxLoop rid l).1.rids_to_merge then
          (t.updIdxLoop rid l).1
        else { (t.updIdxLoop rid l).1 with
          rids_to_merge :=
            (t.updIdxLoop rid l).1.rids_to_merge ++ [rid] }).page_directory =
        t.page_directory
      rw [t8_pd]
      exact hfr.1
    · show (if rid ∈ (t.updIdxLoop rid l).1.rids_to_merge then
          (t.updIdxLoop rid l).1
        else { (t.updIdxLoop rid l).1 with
          rids_to_merge :=
            (t.updIdxLoop rid l).1.rids_to_merge ++ [rid] }).page_ranges =
        t.page_ranges
      rw [t8_pr]
      exact hfr.2.1
  · have he : (let ur := t.updIdxLoop rid l
        if ur.2 then
          (let t8 := if rid ∈ ur.1.rids_to_merge then ur.1
             else { ur.1 with rids_to_merge := ur.1.rids_to_merge ++ [rid] }
           ({ t8 with updates_since_merge := t8.updates_since_merge + 1 },
            some true))
        else (ur.1, none)) = ((t.updIdxLoop rid l).1, none) := by
      show (if (t.updIdxLoop rid l).2 = true then
          ({ (if rid ∈ (t.updIdxLoop rid l).1.rids_to_merge then
                (t.updIdxLoop rid l).1
              else { (t.updIdxLoop rid l).1 with
                rids_to_merge := (t.updIdxLoop rid l).1.rids_to_merge ++ [rid] })
             with
             updates_since_merge :=
               (if rid ∈ (t.updIdxLoop rid l).1.rids_to_merge then
                  (t.updIdxLoop rid l).1
                else { (t.updIdxLoop rid l).1 with
                  rids_to_merge :=
                    (t.updIdxLoop rid l).1.rids_to_merge ++ [rid] }).updates_since_merge
                 + 1 },
           some true)
        else ((t.updIdxLoop rid l).1, none)) = _
      rw [if_neg h2]
    rw [he]
    exact ⟨hfr.1, hfr.2.1⟩

/-- C2: for a live base record `rid` stored at a base slot whose latest
version is `(v, s)`, `update_record` appends exactly one tail record
whose metadata row is `[old INDIRECTION, new tail rid, now, s OR bit i
for each supplied column i]` and whose user columns take the supplied
values where present and `v` otherwise, and overwrites the base
record's INDIRECTION with the new tail rid and its SCHEMA_ENCODING with
the new encoding. -/
theorem update_record_appends_tail (t : Table) (now rid : Nat)
    (columns : List (Option Nat)) (base v : List Nat) (s : Nat)
    (bridx boff : Nat)
    (hWF : t.WF)
    (hbase : t.read_record rid = some base)
    (hlat : t.get_latest_version rid = some (v, s))
    (hloc : dictGet t.page_directory rid = some (bridx, false, boff)) :
    (t.update_record now rid columns).1.read_record t.next_rid =
      some ([base.getD INDIRECTION_COLUMN 0, t.next_rid, now, newSchemaOf s columns] ++ mergedUserCols columns v t.num_columns) ∧
    (t.update_record now rid columns).1.read_record rid =
      some ((base.set INDIRECTION_COLUMN t.next_rid).set SCHEMA_ENCODING_COLUMN
        (newSchemaOf s columns)) ∧
    (∃ tridx, tridx < (t.update_record now rid columns).1.page_ranges.length ∧
      ((t.update_record now rid columns).1.page_ranges.getD tridx default).num_tail_records =
        (t.page_ranges.getD tridx default).num_tail_records + 1 ∧
      ∀ j, j ≠ tridx →
        ((t.update_record now rid columns).1.page_ranges.getD j default).num_tail_records =
          (t.page_ranges.getD j default).num_tail_records) ∧
    ∀ j, ((t.update_record now rid columns).1.page_ranges.getD j default).num_base_records =
      (t.page_ranges.getD j default).num_base_records := by
  have hmem := dictGet_mem t.page_directory rid (bridx, false, boff) hloc
  obtain ⟨hrne0, hrlt, hbr, hdum, hboffB⟩ := hWF.2.2.2.1 _ hmem
  have hboff : boff < (t.page_ranges.getD bridx default).num_base_records :=
    hboffB rfl
  have hbrid := read_record_some_rid_ne t rid base hbase
  have hnext1 : 1 ≤ t.next_rid := hWF.2.1
  have hrne : rid ≠ t.next_rid := by omega
  have hrow0 : base = (t.page_ranges.getD bridx default).read_base_record boff := by
    have h0 := hbase
    unfold Table.read_record at h0
    rw [hloc] at h0
    exact (readLoc_base_inv t.page_ranges bridx boff base h0).1
  have hbase_row : rowAt (t.page_ranges.getD bridx default).base_cols boff = base :=
    hrow0.symm
  obtain ⟨R, hR⟩ : ∃ x, x = t.record_modification rid ModType.upd (some base) none :=
    ⟨_, rfl⟩
  have hRn : R.next_rid = t.next_rid := by rw [hR]; rfl
  have hRnc : R.num_columns = t.num_columns := by rw [hR]; rfl
  have hRpd : R.page_directory = t.page_directory := by rw [hR]; rfl
  have hRpr : R.page_ranges = t.page_ranges := by rw [hR]; rfl
  have hlat1 : R.get_latest_version rid = some (v, s) := by rw [hR]; exact hlat
  have hWF2 : Table.WF { R with next_rid := R.next_rid + 1 } := by
    rw [hR]
    exact wf_bump_next _
      (wf_record_modification t rid ModType.upd (some base) none hWF) _
      (Nat.le_succ _)
  have hps := pick_tail_spec _ hWF2
  obtain ⟨tp, tridx, hpk⟩ :
      ∃ a b, Table.pick_tail_range { R with next_rid := R.next_rid + 1 } = (a, b) :=
    ⟨_, _, rfl⟩
  rw [hpk] at hps
  have hps2 : GotSpec { R with next_rid := R.next_rid + 1 } tp tridx := hps
  obtain ⟨hg1, hg2, hg3, hg4, hg5, hg6, hg7, hg8, hg9, hg10, hg11, hg12, hg13,
    hg14, hg15⟩ := hps2
  have hPdir : tp.page_directory = t.page_directory := hg1.trans hRpd
  have hlenle : t.page_ranges.length ≤ tp.page_ranges.length := by
    have h : R.page_ranges.length ≤ tp.page_ranges.length := hg7
    rw [hRpr] at h
    exact h
  have hlt : ∀ j, j < t.page_ranges.length →
      tp.page_ranges.getD j default = t.page_ranges.getD j default := by
    intro j hj
    have h : tp.page_ranges.getD j default = R.page_ranges.getD j default :=
      hg8 j (by rw [hRpr]; exact hj)
    rw [hRpr] at h
    exact h
  have hne : ∀ j, j ≠ tridx →
      tp.page_ranges.getD j default = t.page_ranges.getD j default := by
    intro j hj
    have h : tp.page_ranges.getD j default = R.page_ranges.getD j default :=
      hg9 j hj
    rw [hRpr] at h
    exact h
  have htl : (tp.page_ranges.getD tridx default).tail_cols.length = 4 + t.num_columns := by
    have h : (tp.page_ranges.getD tridx default).tail_cols.length = 4 + R.num_columns := hg12
    rw [hRnc] at h
    exact h
  have htc := hg13
  have hnb : (tp.page_ranges.getD tridx default).num_base_records =
      (t.page_ranges.getD tridx default).num_base_records := by
    have h : (tp.page_ranges.getD tridx default).num_base_records =
        (R.page_ranges.getD tridx default).num_base_records := hg14
    rw [hRpr] at h
    exact h
  have hnt : (tp.page_ranges.getD tridx default).num_tail_records =
      (t.page_ranges.getD tridx default).num_tail_records := by
    have h : (tp.page_ranges.getD tridx default).num_tail_records =
        (R.page_ranges.getD tridx default).num_tail_records := hg15
    rw [hRpr] at h
    exact h
  have hbrtp : bridx < tp.page_ranges.length := lt_of_lt_of_le hbr hlenle
  obtain ⟨w, ok, hw⟩ : ∃ a b, t.update_record now rid columns = (a, b) := ⟨_, _, rfl⟩
  have hw1 : (t.update_record now rid columns).1 = w := by rw [hw]
  have hrneR : rid ≠ R.next_rid := by rw [hRn]; exact hrne
  have hd5 : dictGet (dictSet tp.page_directory R.next_rid
      (tridx, true, ((tp.page_ranges.getD tridx default).write_tail_record ([base.getD INDIRECTION_COLUMN 0, R.next_rid, now, newSchemaOf s columns] ++ mergedUserCols columns v R.num_columns)).2)) rid =
      some (bridx, false, boff) := by
    rw [dictGet_dictSet_ne tp.page_directory R.next_rid rid _ hrneR, hPdir]
    exact hloc
  unfold Table.update_record at hw
  rw [hbase] at hw
  simp only [← hR, hlat1, hpk, hd5] at hw
  have hw4 : (let ur := Table.updIdxLoop (Table.updateBaseCol (Table.updateBaseCol ({ { tp with page_ranges := tp.page_ranges.set tridx (((tp.page_ranges.getD tridx default).write_tail_record ([base.getD INDIRECTION_COLUMN 0, R.next_rid, now, newSchemaOf s columns] ++ mergedUserCols columns v R.num_columns)).1) } with page_directory := dictSet tp.page_directory R.next_rid (tridx, true, ((tp.page_ranges.getD tridx default).write_tail_record ([base.getD INDIRECTION_COLUMN 0, R.next_rid, now, newSchemaOf s columns] ++ mergedUserCols columns v R.num_columns)).2) }) bridx boff INDIRECTION_COLUMN R.next_rid) bridx boff SCHEMA_ENCODING_COLUMN (newSchemaOf s columns)) rid ((columns.enum).foldr (fun cv acc => match cv.2 with | some v2 => (cv.1, v.getD cv.1 0, v2) :: acc | none => acc) ([] : List (Nat × Nat × Nat)))
      if ur.2 then
        (let t8 := if rid ∈ ur.1.rids_to_merge then ur.1
           else { ur.1 with rids_to_merge := ur.1.rids_to_merge ++ [rid] }
         ({ t8 with updates_since_merge := t8.updates_since_merge + 1 },
          some true))
      else (ur.1, none)) = (w, ok) := hw
  have hfin := updFinish_frame (Table.updateBaseCol (Table.updateBaseCol ({ { tp with page_ranges := tp.page_ranges.set tridx (((tp.page_ranges.getD tridx default).write_tail_record ([base.getD INDIRECTION_COLUMN 0, R.next_rid, now, newSchemaOf s columns] ++ mergedUserCols columns v R.num_columns)).1) } with page_directory := dictSet tp.page_directory R.next_rid (tridx, true, ((tp.page_ranges.getD tridx default).write_tail_record ([base.getD INDIRECTION_COLUMN 0, R.next_rid, now, newSchemaOf s columns] ++ mergedUserCols columns v R.num_columns)).2) }) bridx boff INDIRECTION_COLUMN R.next_rid) bridx boff SCHEMA_ENCODING_COLUMN (newSchemaOf s columns)) rid ((columns.enum).foldr (fun cv acc => match cv.2 with | some v2 => (cv.1, v.getD cv.1 0, v2) :: acc | none => acc) ([] : List (Nat × Nat × Nat)))
  have hpd0 : w.page_directory = dictSet tp.page_directory R.next_rid
      (tridx, true, (tp.page_ranges.getD tridx default).num_tail_records) := by
    have h := hfin.1
    rw [hw4] at h
    exact h
  have hrg0 : w.page_ranges = (((tp.page_ranges.set tridx (((tp.page_ranges.getD tridx default).write_tail_record ([base.getD INDIRECTION_COLUMN 0, R.next_rid, now, newSchemaOf s columns] ++ mergedUserCols columns v R.num_columns)).1)).set bridx (((tp.page_ranges.set tridx (((tp.page_ranges.getD tridx default).write_tail_record ([base.getD INDIRECTION_COLUMN 0, R.next_rid, now, newSchemaOf s columns] ++ mergedUserCols columns v R.num_columns)).1)).getD bridx default).update_base_column boff INDIRECTION_COLUMN R.next_rid)).set bridx ((((tp.page_ranges.set tridx (((tp.page_ranges.getD tridx default).write_tail_record ([base.getD INDIRECTION_COLUMN 0, R.next_rid, now, newSchemaOf s columns] ++ mergedUserCols columns v R.num_columns)).1)).set bridx (((tp.page_ranges.set tridx (((tp.page_ranges.getD tridx default).write_tail_record ([base.getD INDIRECTION_COLUMN 0, R.next_rid, now, newSchemaOf s columns] ++ mergedUserCols columns v R.num_columns)).1)).getD bridx default).update_base_column boff INDIRECTION_COLUMN R.next_rid)).getD bridx default).update_base_column boff SCHEMA_ENCODING_COLUMN (newSchemaOf s columns))) := by
    have h := hfin.2
    rw [hw4] at h
    exact h
  rw [hRn] at hpd0
  rw [hRn, hRnc] at hrg0
  have hbL0 : bridx < (tp.page_ranges.set tridx (((tp.page_ranges.getD tridx default).write_tail_record ([base.getD INDIRECTION_COLUMN 0, t.next_rid, now, newSchemaOf s columns] ++ mergedUserCols columns v t.num_columns)).1)).length := by
    simp only [List.length_set]
    exact hbrtp
  have hbL1 : bridx < ((tp.page_ranges.set tridx (((tp.page_ranges.getD tridx default).write_tail_record ([base.getD INDIRECTION_COLUMN 0, t.next_rid, now, newSchemaOf s columns] ++ mergedUserCols columns v t.num_columns)).1)).set bridx (((tp.page_ranges.set tridx (((tp.page_ranges.getD tridx default).write_tail_record ([base.getD INDIRECTION_COLUMN 0, t.next_rid, now, newSchemaOf s columns] ++ mergedUserCols columns v t.num_columns)).1)).getD bridx default).update_base_column boff INDIRECTION_COLUMN t.next_rid)).length := by
    simp only [List.length_set]
    exact hbrtp
  have hget0 : (tp.page_ranges.set tridx (((tp.page_ranges.getD tridx default).write_tail_record ([base.getD INDIRECTION_COLUMN 0, t.next_rid, now, newSchemaOf s columns] ++ mergedUserCols columns v t.num_columns)).1)).getD tridx default = ((tp.page_ranges.getD tridx default).write_tail_record ([base.getD INDIRECTION_COLUMN 0, t.next_rid, now, newSchemaOf s columns] ++ mergedUserCols columns v t.num_columns)).1 :=
    getD_set_self default _ _ _ hg6
  have hlen2 : tridx < w.page_ranges.length := by
    rw [hrg0]
    simp only [List.length_set]
    exact hg6
  have hlenb2 : bridx < w.page_ranges.length := by
    rw [hrg0]
    simp only [List.length_set]
    exact hbrtp
  have hmaster : ∀ j,
      ((w.page_ranges.getD j default).num_tail_records =
        if j = tridx then (t.page_ranges.getD j default).num_tail_records + 1
        else (t.page_ranges.getD j default).num_tail_records) ∧
      (w.page_ranges.getD j default).num_base_records =
        (t.page_ranges.getD j default).num_base_records := by
    intro j
    rw [hrg0]
    by_cases hjb : j = bridx
    · rw [hjb]
      by_cases hbt : bridx = tridx
      · subst hbt
        rw [getD_set_self default _ _ _ hbL1, ubc_num_tail, ubc_num_base,
            getD_set_self default _ _ _ hbL0, ubc_num_tail, ubc_num_base,
            hget0, wtr_num_tail, wtr_num_base, if_pos rfl]
        exact ⟨by rw [hnt], hnb⟩
      · rw [getD_set_self default _ _ _ hbL1, ubc_num_tail, ubc_num_base,
            getD_set_self default _ _ _ hbL0, ubc_num_tail, ubc_num_base,
            getD_set_ne default _ _ tridx bridx (fun hh => hbt hh.symm),
            hne bridx hbt, if_neg hbt]
        exact ⟨rfl, rfl⟩
    · rw [getD_set_ne default _ _ bridx j (fun hh => hjb hh.symm),
          getD_set_ne default _ _ bridx j (fun hh => hjb hh.symm)]
      by_cases hjt : j = tridx
      · rw [hjt, hget0, wtr_num_tail, wtr_num_base, if_pos rfl]
        exact ⟨by rw [hnt], hnb⟩
      · rw [getD_set_ne default _ _ tridx j (fun hh => hjt hh.symm), hne j hjt,
          if_neg hjt]
        exact ⟨rfl, rfl⟩
  have hgetT : (w.page_ranges.getD tridx default).tail_cols =
      appendEach (tp.page_ranges.getD tridx default).tail_cols ([base.getD INDIRECTION_COLUMN 0, t.next_rid, now, newSchemaOf s columns] ++ mergedUserCols columns v t.num_columns) ∧
      (w.page_ranges.getD tridx default).num_tail_records =
        (tp.page_ranges.getD tridx default).num_tail_records + 1 := by
    rw [hrg0]
    by_cases hbt : bridx = tridx
    · subst hbt
      rw [getD_set_self default _ _ _ hbL1, ubc_tail_cols, ubc_num_tail,
          getD_set_self default _ _ _ hbL0, ubc_tail_cols, ubc_num_tail,
          hget0, wtr_tail_cols, wtr_num_tail]
      exact ⟨rfl, rfl⟩
    · rw [getD_set_ne default _ _ bridx tridx hbt,
          getD_set_ne default _ _ bridx tridx hbt,
          hget0, wtr_tail_cols, wtr_num_tail]
      exact ⟨rfl, rfl⟩
  have hgetB : (w.page_ranges.getD bridx default).base_cols = (((t.page_ranges.getD bridx default).base_cols.set INDIRECTION_COLUMN (((t.page_ranges.getD bridx default).base_cols.getD INDIRECTION_COLUMN []).set boff t.next_rid)).set SCHEMA_ENCODING_COLUMN ((((t.page_ranges.getD bridx default).base_cols.set INDIRECTION_COLUMN (((t.page_ranges.getD bridx default).base_cols.getD INDIRECTION_COLUMN []).set boff t.next_rid)).getD SCHEMA_ENCODING_COLUMN []).set boff (newSchemaOf s columns))) := by
    rw [hrg0, getD_set_self default _ _ _ hbL1, ubc_base_cols,
        getD_set_self default _ _ _ hbL0, ubc_base_cols]
    have hB0 : ((tp.page_ranges.set tridx (((tp.page_ranges.getD tridx default).write_tail_record ([base.getD INDIRECTION_COLUMN 0, t.next_rid, now, newSchemaOf s columns] ++ mergedUserCols columns v t.num_columns)).1)).getD bridx default).base_cols = (t.page_ranges.getD bridx default).base_cols := by
      by_cases hbt : bridx = tridx
      · subst hbt
        rw [hget0, wtr_base_cols, hlt _ hbr]
      · rw [getD_set_ne default _ _ tridx bridx (fun hh => hbt hh.symm),
            hlt _ hbr]
    rw [hB0]
  have hrw := hWF.2.2.1 _ (getD_mem default t.page_ranges bridx hbr)
  have hIlen : boff < ((t.page_ranges.getD bridx default).base_cols.getD INDIRECTION_COLUMN []).length := by
    rw [hrw.2.2.1 _ (getD_mem [] _ INDIRECTION_COLUMN
      (by rw [hrw.1]; show 0 < 4 + t.num_columns; omega))]
    exact hboff
  have hSlen : boff < (((t.page_ranges.getD bridx default).base_cols.set INDIRECTION_COLUMN (((t.page_ranges.getD bridx default).base_cols.getD INDIRECTION_COLUMN []).set boff t.next_rid)).getD SCHEMA_ENCODING_COLUMN []).length := by
    rw [getD_set_ne [] _ _ INDIRECTION_COLUMN SCHEMA_ENCODING_COLUMN (by decide)]
    rw [hrw.2.2.1 _ (getD_mem [] _ SCHEMA_ENCODING_COLUMN
      (by rw [hrw.1]; show 3 < 4 + t.num_columns; omega))]
    exact hboff
  have hrowB : rowAt (((t.page_ranges.getD bridx default).base_cols.set INDIRECTION_COLUMN (((t.page_ranges.getD bridx default).base_cols.getD INDIRECTION_COLUMN []).set boff t.next_rid)).set SCHEMA_ENCODING_COLUMN ((((t.page_ranges.getD bridx default).base_cols.set INDIRECTION_COLUMN (((t.page_ranges.getD bridx default).base_cols.getD INDIRECTION_COLUMN []).set boff t.next_rid)).getD SCHEMA_ENCODING_COLUMN []).set boff (newSchemaOf s columns))) boff =
      (base.set INDIRECTION_COLUMN t.next_rid).set SCHEMA_ENCODING_COLUMN
        (newSchemaOf s columns) := by
    rw [rowAt_set_col _ SCHEMA_ENCODING_COLUMN boff (newSchemaOf s columns) hSlen,
        rowAt_set_col _ INDIRECTION_COLUMN boff t.next_rid hIlen, hbase_row]
  have hrdB : (w.page_ranges.getD bridx default).read_base_record boff =
      (base.set INDIRECTION_COLUMN t.next_rid).set SCHEMA_ENCODING_COLUMN
        (newSchemaOf s columns) := by
    show rowAt (w.page_ranges.getD bridx default).base_cols boff = _
    rw [hgetB]
    exact hrowB
  have hzB : ¬((w.page_ranges.getD bridx default).read_base_record boff).getD
      RID_COLUMN 0 = DELETED_RID := by
    rw [hrdB, getD_set_ne 0 _ _ SCHEMA_ENCODING_COLUMN RID_COLUMN (by decide),
        getD_set_ne 0 _ _ INDIRECTION_COLUMN RID_COLUMN (by decide)]
    exact hbrid
  have hdg2 : dictGet w.page_directory rid = some (bridx, false, boff) := by
    rw [hpd0, dictGet_dictSet_ne tp.page_directory t.next_rid rid _ hrne, hPdir]
    exact hloc
  have hread2 : w.read_record rid =
      some ((base.set INDIRECTION_COLUMN t.next_rid).set SCHEMA_ENCODING_COLUMN
        (newSchemaOf s columns)) := by
    rw [read_record_eq w rid _ hdg2,
        readLoc_base w.page_ranges bridx boff hlenb2 hzB, hrdB]
  have hTDlen : ([base.getD INDIRECTION_COLUMN 0, t.next_rid, now, newSchemaOf s columns] ++ mergedUserCols columns v t.num_columns).length = 4 + t.num_columns := by
    simp [mergedUserCols_length]
    omega
  have hrdT : (w.page_ranges.getD tridx default).read_tail_record
      ((tp.page_ranges.getD tridx default).num_tail_records) = [base.getD INDIRECTION_COLUMN 0, t.next_rid, now, newSchemaOf s columns] ++ mergedUserCols columns v t.num_columns := by
    show rowAt (w.page_ranges.getD tridx default).tail_cols _ = _
    rw [hgetT.1]
    exact rowAt_appendEach_last _ _ _ (by rw [htl, hTDlen]) htc
  have hzT : ¬((w.page_ranges.getD tridx default).read_tail_record
      ((tp.page_ranges.getD tridx default).num_tail_records)).getD RID_COLUMN 0 = DELETED_RID := by
    rw [hrdT]
    show ¬ t.next_rid = 0
    omega
  have hdg1 : dictGet w.page_directory t.next_rid =
      some (tridx, true, (tp.page_ranges.getD tridx default).num_tail_records) := by
    rw [hpd0]
    exact dictGet_dictSet_self tp.page_directory t.next_rid _
  have hread1 : w.read_record t.next_rid = some ([base.getD INDIRECTION_COLUMN 0, t.next_rid, now, newSchemaOf s columns] ++ mergedUserCols columns v t.num_columns) := by
    rw [read_record_eq w t.next_rid _ hdg1,
        readLoc_tail w.page_ranges tridx _ hlen2 hzT, hrdT]
  rw [hw1]
  refine ⟨hread1, hread2, ⟨tridx, hlen2, ?_, ?_⟩, fun j => (hmaster j).2⟩
  · have h := (hmaster tridx).1
    rwa [if_pos rfl] at h
  · intro j hj
    have h := (hmaster j).1
    rwa [if_neg hj] at h

/-- C2 witness: updating record 1 of scenario S1 with
`[None, 20, None]` at time 0. -/
theorem update_record_appends_tail_witness :
    (tableS1.update_record 0 1 [none, some 20, none]).1.read_record tableS1.next_rid =
      some ([([0, 1, 0, 0, 1, 10, 100] : List Nat).getD INDIRECTION_COLUMN 0,
        tableS1.next_rid, 0, newSchemaOf 0 [none, some 20, none]] ++
        mergedUserCols [none, some 20, none] [1, 10, 100]
          tableS1.num_columns) ∧
    (tableS1.update_record 0 1 [none, some 20, none]).1.read_record 1 =
      some ((([0, 1, 0, 0, 1, 10, 100] : List Nat).set INDIRECTION_COLUMN
        tableS1.next_rid).set SCHEMA_ENCODING_COLUMN
          (newSchemaOf 0 [none, some 20, none])) ∧
    (∃ tridx, tridx < (tableS1.update_record 0 1 [none, some 20, none]).1.page_ranges.length ∧
      ((tableS1.update_record 0 1 [none, some 20, none]).1.page_ranges.getD tridx default).num_tail_records =
        (tableS1.page_ranges.getD tridx default).num_tail_records + 1 ∧
      ∀ j, j ≠ tridx →
        ((tableS1.update_record 0 1 [none, some 20, none]).1.page_ranges.getD j default).num_tail_records =
          (tableS1.page_ranges.getD j default).num_tail_records) ∧
    ∀ j, ((tableS1.update_record 0 1 [none, some 20, none]).1.page_ranges.getD j default).num_base_records =
      (tableS1.page_ranges.getD j default).num_base_records :=
  update_record_appends_tail tableS1 0 1 [none, some 20, none]
    [0, 1, 0, 0, 1, 10, 100] [1, 10, 100] 0 0 0 (by decide) (by decide)
    (by decide) (by decide)


theorem length_insertAt {α : Type} :
    ∀ (n : Nat) (a : α) (l : List α), (insertAt n a l).length = l.length + 1 := by
  intro n
  induction n with
  | zero => intro a l; rfl
  | succ m ih =>
    intro a l
    cases l with
    | nil => rfl
    | cons b l2 =>
      show (b :: insertAt m a l2).length = (b :: l2).length + 1
      simp [ih a l2]

theorem mem_insertAt {α : Type} :
    ∀ (n : Nat) (x : α) (l : List α) (a : α), a ∈ insertAt n x l → a = x ∨ a ∈ l := by
  intro n
  induction n with
  | zero =>
    intro x l a h
    simp [insertAt] at h
    rcases h with h | h
    · exact Or.inl h
    · exact Or.inr h
  | succ m ih =>
    intro x l a h
    cases l with
    | nil =>
      simp [insertAt] at h
      exact Or.inl h
    | cons b l2 =>
      have h2 : a ∈ b :: insertAt m x l2 := h
      simp at h2
      rcases h2 with h2 | h2
      · exact Or.inr (by simp [h2])
      · rcases ih x l2 a h2 with h3 | h3
        · exact Or.inl h3
        · exact Or.inr (by simp [h3])

theorem getD_insertAt_lt {α : Type} (d : α) :
    ∀ (n : Nat) (x : α) (l : List α) (i : Nat), i < n → n ≤ l.length →
      (insertAt n x l).getD i d = l.getD i d := by
  intro n
  induction n with
  | zero => intro x l i h _; omega
  | succ m ih =>
    intro x l i h hn
    cases l with
    | nil => simp at hn
    | cons b l2 =>
      cases i with
      | zero => rfl
      | succ j =>
        show (insertAt m x l2).getD j d = l2.getD j d
        exact ih x l2 j (by omega) (by simpa using hn)

theorem getD_insertAt_succ_ge {α : Type} (d : α) :
    ∀ (n : Nat) (x : α) (l : List α) (i : Nat), n ≤ i →
      (insertAt n x l).getD (i + 1) d = l.getD i d := by
  intro n
  induction n with
  | zero =>
    intro x l i _
    rfl
  | succ m ih =>
    intro x l i h
    cases l with
    | nil =>
      show ([x] : List α).getD (i + 1) d = ([] : List α).getD i d
      cases i with
      | zero => omega
      | succ j => cases j <;> rfl
    | cons b l2 =>
      cases i with
      | zero => omega
      | succ j =>
        show (insertAt m x l2).getD (j + 1) d = l2.getD j d
        exact ih x l2 j (by omega)

theorem binSearchGo_le (sk : List Nat) (v : Nat) (dead : Finset Nat) :
    ∀ (fuel left right : Nat), left ≤ right →
      binSearchGo sk v dead fuel left right ≤ right := by
  intro fuel
  induction fuel with
  | zero => intro left right h; exact h
  | succ f ih =>
    intro left right h
    show (if left < right then
        (if sk.getD ((left + right) / 2) 0 ∈ dead then
          binSearchGo sk v dead f left ((left + right) / 2)
        else if sk.getD ((left + right) / 2) 0 < v then
          binSearchGo sk v dead f ((left + right) / 2 + 1) right
        else binSearchGo sk v dead f left ((left + right) / 2))
      else left) ≤ right
    by_cases hlr : left < right
    · rw [if_pos hlr]
      have hm1 : left ≤ (left + right) / 2 := by omega
      have hm2 : (left + right) / 2 ≤ right := by omega
      have hm3 : (left + right) / 2 + 1 ≤ right := by omega
      by_cases hd : sk.getD ((left + right) / 2) 0 ∈ dead
      · rw [if_pos hd]
        exact le_trans (ih left _ hm1) hm2
      · rw [if_neg hd]
        by_cases hv : sk.getD ((left + right) / 2) 0 < v
        · rw [if_pos hv]
          exact ih _ right hm3
        · rw [if_neg hv]
          exact le_trans (ih left _ hm1) hm2
    · rw [if_neg hlr]
      exact h

theorem binSearch_le (sk : List Nat) (v : Nat) (dead : Finset Nat) :
    binSearch sk v dead ≤ sk.length :=
  binSearchGo_le sk v dead sk.length 0 sk.length (Nat.zero_le _)

theorem dictSet_preserves_isSome {α : Type} (m : List (Nat × α)) (k : Nat) (v : α)
    (k2 : Nat) (h : k2 = k ∨ (dictGet m k2).isSome = true) :
    (dictGet (dictSet m k v) k2).isSome = true := by
  by_cases he : k2 = k
  · subst he
    rw [dictGet_dictSet_self]
    rfl
  · rcases h with h | h
    · exact absurd h he
    · rw [dictGet_dictSet_ne m k k2 v he]
      exact h

theorem getD_some_mem {α : Type} :
    ∀ (l : List (Option α)) (i : Nat) (x : α),
      l.getD i none = some x → some x ∈ l := by
  intro l i x h
  by_cases hi : i < l.length
  · have h2 := getD_mem none l i hi
    rw [h] at h2
    exact h2
  · rw [getD_of_length_le none l i (by omega)] at h
    exact absurd h (by simp)

set_option maxRecDepth 8000 in
theorem insertVal_isSome (ci : ColIndex) (value rid : Nat) (h : IdxOK ci) :
    (ci.insertVal value rid).isSome = true := by
  cases hm : dictGet ci.idx_map value with
  | some nid =>
    simp only [ColIndex.insertVal, hm]
    rfl
  | none =>
    cases ht : ci.tail with
    | none =>
      simp only [ColIndex.insertVal, hm, ht]
      rfl
    | some tlid =>
      simp only [ColIndex.insertVal, hm, ht]
      by_cases hlt : (ci.nodes.getD tlid default).value < value
      · rw [if_pos hlt]
        rfl
      · rw [if_neg hlt]
        have hle := binSearch_le ci.sorted_keys value (ci.dead_keys.erase value)
        by_cases h0 : binSearch ci.sorted_keys value (ci.dead_keys.erase value) = 0
        · rw [if_pos h0]
          have hh : ci.head.isSome = true := h.1 (by rw [ht]; rfl)
          cases hhd : ci.head with
          | none => rw [hhd] at hh; exact absurd hh (by simp)
          | some hid => rfl
        · rw [if_neg h0]
          by_cases hlast : binSearch ci.sorted_keys value (ci.dead_keys.erase value) = (insertAt (binSearch ci.sorted_keys value (ci.dead_keys.erase value)) value ci.sorted_keys).length - 1
          · rw [if_pos hlast]
            rfl
          · rw [if_neg hlast]
            have hlen : (insertAt (binSearch ci.sorted_keys value (ci.dead_keys.erase value)) value ci.sorted_keys).length = ci.sorted_keys.length + 1 :=
              length_insertAt _ _ _
            have hposlt : binSearch ci.sorted_keys value (ci.dead_keys.erase value) < ci.sorted_keys.length := by
              rw [hlen] at hlast
              omega
            have hsk1 : (insertAt (binSearch ci.sorted_keys value (ci.dead_keys.erase value)) value ci.sorted_keys).getD (binSearch ci.sorted_keys value (ci.dead_keys.erase value) - 1) 0 =
                ci.sorted_keys.getD (binSearch ci.sorted_keys value (ci.dead_keys.erase value) - 1) 0 :=
              getD_insertAt_lt 0 _ _ _ _ (by omega) hle
            have hsk2 : (insertAt (binSearch ci.sorted_keys value (ci.dead_keys.erase value)) value ci.sorted_keys).getD (binSearch ci.sorted_keys value (ci.dead_keys.erase value) + 1) 0 =
                ci.sorted_keys.getD (binSearch ci.sorted_keys value (ci.dead_keys.erase value)) 0 :=
              getD_insertAt_succ_ge 0 _ _ _ _ (le_refl _)
            have hm1 := h.2 _ (getD_mem 0 ci.sorted_keys (binSearch ci.sorted_keys value (ci.dead_keys.erase value) - 1) (by omega))
            have hm2 := h.2 _ (getD_mem 0 ci.sorted_keys (binSearch ci.sorted_keys value (ci.dead_keys.erase value)) hposlt)
            obtain ⟨p1, hp1⟩ := Option.isSome_iff_exists.mp hm1
            obtain ⟨p2, hp2⟩ := Option.isSome_iff_exists.mp hm2
            rw [hsk1, hsk2, hp1, hp2]
            rfl

set_option maxRecDepth 8000 in
theorem insertVal_IdxOK (ci : ColIndex) (value rid : Nat) (h : IdxOK ci) :
    ∀ ci2, ci.insertVal value rid = some ci2 → IdxOK ci2 := by
  intro ci2 heq
  cases hm : dictGet ci.idx_map value with
  | some nid =>
    simp only [ColIndex.insertVal, hm] at heq
    injection heq with heq
    subst heq
    exact ⟨h.1, h.2⟩
  | none =>
    cases ht : ci.tail with
    | none =>
      simp only [ColIndex.insertVal, hm, ht] at heq
      injection heq with heq
      subst heq
      constructor
      · intro hx
        rfl
      · intro k hk
        have hk2 : k ∈ ci.sorted_keys ++ [value] := hk
        rw [List.mem_append] at hk2
        show (dictGet (dictSet ci.idx_map value ci.nodes.length) k).isSome = true
        apply dictSet_preserves_isSome
        rcases hk2 with hk2 | hk2
        · exact Or.inr (h.2 k hk2)
        · exact Or.inl (by simpa using hk2)
    | some tlid =>
      simp only [ColIndex.insertVal, hm, ht] at heq
      by_cases hlt : (ci.nodes.getD tlid default).value < value
      · rw [if_pos hlt] at heq
        injection heq with heq
        subst heq
        constructor
        · intro hx
          exact h.1 (by rw [ht]; rfl)
        · intro k hk
          have hk2 : k ∈ ci.sorted_keys ++ [value] := hk
          rw [List.mem_append] at hk2
          show (dictGet (dictSet ci.idx_map value ci.nodes.length) k).isSome = true
          apply dictSet_preserves_isSome
          rcases hk2 with hk2 | hk2
          · exact Or.inr (h.2 k hk2)
          · exact Or.inl (by simpa using hk2)
      · rw [if_neg hlt] at heq
        have hle := binSearch_le ci.sorted_keys value (ci.dead_keys.erase value)
        by_cases h0 : binSearch ci.sorted_keys value (ci.dead_keys.erase value) = 0
        · rw [if_pos h0] at heq
          have hh : ci.head.isSome = true := h.1 (by rw [ht]; rfl)
          cases hhd : ci.head with
          | none => rw [hhd] at hh; exact absurd hh (by simp)
          | some hid =>
            rw [hhd] at heq
            injection heq with heq
            subst heq
            constructor
            · intro hx
              rfl
            · intro k hk
              have hk2 : k ∈ insertAt (binSearch ci.sorted_keys value (ci.dead_keys.erase value)) value ci.sorted_keys := hk
              show (dictGet (dictSet ci.idx_map value ci.nodes.length) k).isSome =
                true
              apply dictSet_preserves_isSome
              rcases mem_insertAt _ _ _ _ hk2 with hk3 | hk3
              · exact Or.inl hk3
              · exact Or.inr (h.2 k hk3)
        · rw [if_neg h0] at heq
          by_cases hlast : binSearch ci.sorted_keys value (ci.dead_keys.erase value) = (insertAt (binSearch ci.sorted_keys value (ci.dead_keys.erase value)) value ci.sorted_keys).length - 1
          · rw [if_pos hlast] at heq
            injection heq with heq
            subst heq
            constructor
            · intro hx
              exact h.1 (by rw [ht]; rfl)
            · intro k hk
              have hk2 : k ∈ insertAt (binSearch ci.sorted_keys value (ci.dead_keys.erase value)) value ci.sorted_keys := hk
              show (dictGet (dictSet ci.idx_map value ci.nodes.length) k).isSome =
                true
              apply dictSet_preserves_isSome
              rcases mem_insertAt _ _ _ _ hk2 with hk3 | hk3
              · exact Or.inl hk3
              · exact Or.inr (h.2 k hk3)
          · rw [if_neg hlast] at heq
            have hlen : (insertAt (binSearch ci.sorted_keys value (ci.dead_keys.erase value)) value ci.sorted_keys).length = ci.sorted_keys.length + 1 :=
              length_insertAt _ _ _
            have hposlt : binSearch ci.sorted_keys value (ci.dead_keys.erase value) < ci.sorted_keys.length := by
              rw [hlen] at hlast
              omega
            have hsk1 : (insertAt (binSearch ci.sorted_keys value (ci.dead_keys.erase value)) value ci.sorted_keys).getD (binSearch ci.sorted_keys value (ci.dead_keys.erase value) - 1) 0 =
                ci.sorted_keys.getD (binSearch ci.sorted_keys value (ci.dead_keys.erase value) - 1) 0 :=
              getD_insertAt_lt 0 _ _ _ _ (by omega) hle
            have hsk2 : (insertAt (binSearch ci.sorted_keys value (ci.dead_keys.erase value)) value ci.sorted_keys).getD (binSearch ci.sorted_keys value (ci.dead_keys.erase value) + 1) 0 =
                ci.sorted_keys.getD (binSearch ci.sorted_keys value (ci.dead_keys.erase value)) 0 :=
              getD_insertAt_succ_ge 0 _ _ _ _ (le_refl _)
            have hm1 := h.2 _ (getD_mem 0 ci.sorted_keys (binSearch ci.sorted_keys value (ci.dead_keys.erase value) - 1) (by omega))
            have hm2 := h.2 _ (getD_mem 0 ci.sorted_keys (binSearch ci.sorted_keys value (ci.dead_keys.erase value)) hposlt)
            obtain ⟨p1, hp1⟩ := Option.isSome_iff_exists.mp hm1
            obtain ⟨p2, hp2⟩ := Option.isSome_iff_exists.mp hm2
            rw [hsk1, hsk2, hp1, hp2] at heq
            injection heq with heq
            subst heq
            constructor
            · intro hx
              exact h.1 (by rw [ht]; rfl)
            · intro k hk
              have hk2 : k ∈ insertAt (binSearch ci.sorted_keys value (ci.dead_keys.erase value)) value ci.sorted_keys := hk
              show (dictGet (dictSet ci.idx_map value ci.nodes.length) k).isSome =
                true
              apply dictSet_preserves_isSome
              rcases mem_insertAt _ _ _ _ hk2 with hk3 | hk3
              · exact Or.inl hk3
              · exact Or.inr (h.2 k hk3)
theorem indexInsert_eq_noidx (t : Table) (c vv rid : Nat)
    (hg : t.indices.getD c none = none) :
    t.indexInsert c vv rid = some t := by
  unfold Table.indexInsert
  rw [hg]

theorem indexInsert_eq_some (t : Table) (c vv rid : Nat) (ci ci2 : ColIndex)
    (hg : t.indices.getD c none = some ci) (hv : ci.insertVal vv rid = some ci2) :
    t.indexInsert c vv rid =
      some { t with indices := t.indices.set c (some ci2) } := by
  unfold Table.indexInsert
  rw [hg]
  show (match ci.insertVal vv rid with
    | none => none
    | some ci3 => some { t with indices := t.indices.set c (some ci3) }) = _
  rw [hv]

theorem insertIndicesLoop_cons_none (t : Table) (columns : List Nat) (rid c : Nat)
    (rest : List Nat) (hg : t.indices.getD c none = none) :
    t.insertIndicesLoop columns rid (c :: rest) =
      t.insertIndicesLoop columns rid rest := by
  show (match t.indices.getD c none with
    | none => t.insertIndicesLoop columns rid rest
    | some _ =>
      match t.indexInsert c (columns.getD c 0) rid with
      | none => none
      | some t2 => t2.insertIndicesLoop columns rid rest) = _
  rw [hg]

theorem insertIndicesLoop_cons_some (t t2 : Table) (columns : List Nat)
    (rid c : Nat) (rest : List Nat) (ci : ColIndex)
    (hg : t.indices.getD c none = some ci)
    (hins : t.indexInsert c (columns.getD c 0) rid = some t2) :
    t.insertIndicesLoop columns rid (c :: rest) =
      t2.insertIndicesLoop columns rid rest := by
  show (match t.indices.getD c none with
    | none => t.insertIndicesLoop columns rid rest
    | some _ =>
      match t.indexInsert c (columns.getD c 0) rid with
      | none => none
      | some t3 => t3.insertIndicesLoop columns rid rest) = _
  rw [hg]
  show (match t.indexInsert c (columns.getD c 0) rid with
    | none => none
    | some t3 => t3.insertIndicesLoop columns rid rest) = _
  rw [hins]

theorem insertIndicesLoop_ok (columns : List Nat) (rid : Nat) :
    ∀ (l : List Nat) (t : Table), (∀ o ∈ t.indices, IdxOKopt o) →
      ∃ t2, t.insertIndicesLoop columns rid l = some t2 ∧
        t2.page_directory = t.page_directory ∧ t2.page_ranges = t.page_ranges ∧
        t2.next_rid = t.next_rid := by
  intro l
  induction l with
  | nil => intro t hok; exact ⟨t, rfl, rfl, rfl, rfl⟩
  | cons c rest ih =>
    intro t hok
    cases hg : t.indices.getD c none with
    | none =>
      obtain ⟨t2, h1, h2, h3, h4⟩ := ih t hok
      exact ⟨t2, (insertIndicesLoop_cons_none t columns rid c rest hg).trans h1,
        h2, h3, h4⟩
    | some ci =>
      have hci : IdxOK ci := by
        have hm := getD_some_mem t.indices c ci hg
        exact hok _ hm
      have his := insertVal_isSome ci (columns.getD c 0) rid hci
      cases hv : ci.insertVal (columns.getD c 0) rid with
      | none => rw [hv] at his; exact absurd his (by simp)
      | some ci2 =>
        have hok2 : ∀ o ∈ ({ t with indices := t.indices.set c (some ci2) }
            : Table).indices, IdxOKopt o := by
          intro o ho
          have ho2 : o ∈ t.indices.set c (some ci2) := ho
          rcases List.mem_or_eq_of_mem_set ho2 with h5 | h5
          · exact hok o h5
          · subst h5
            exact insertVal_IdxOK ci (columns.getD c 0) rid hci ci2 hv
        obtain ⟨t2, h1, h2, h3, h4⟩ :=
          ih { t with indices := t.indices.set c (some ci2) } hok2
        refine ⟨t2, ?_, h2, h3, h4⟩
        exact (insertIndicesLoop_cons_some t _ columns rid c rest ci hg
          (indexInsert_eq_some t c (columns.getD c 0) rid ci ci2 hg hv)).trans h1

theorem wbr_num_base (pr : PageRange) (rec : List Nat) :
    ((pr.write_base_record rec).1).num_base_records = pr.num_base_records + 1 :=
  rfl

theorem wbr_num_tail (pr : PageRange) (rec : List Nat) :
    ((pr.write_base_record rec).1).num_tail_records = pr.num_tail_records := rfl

theorem wbr_base_cols (pr : PageRange) (rec : List Nat) :
    ((pr.write_base_record rec).1).base_cols = appendEach pr.base_cols rec := rfl

/-- C3 (corrected): `insert` with a wrong argument count or an
already-indexed primary key returns `False` and leaves the table
untouched; when the checks pass and every populated column index is
structurally sound (`IdxOK`), the insert succeeds and creates exactly
one new base record holding `[0, rid, now, 0] ++ columns`. -/
theorem insert_error_and_success (t : Table) (now : Nat) (columns : List Nat)
    (hWF : t.WF) (hidx : ∀ o ∈ t.indices, IdxOKopt o) :
    (columns.length ≠ t.num_columns → Query.insert t now columns = (false, t)) ∧
    (Index.locate t t.key (columns.getD t.key 0) ≠ ∅ →
      Query.insert t now columns = (false, t)) ∧
    (columns.length = t.num_columns →
     Index.locate t t.key (columns.getD t.key 0) = ∅ →
     (Query.insert t now columns).1 = true ∧
     (Query.insert t now columns).2.read_record t.next_rid = some ([0, t.next_rid, now, 0] ++ columns) ∧
     (Query.insert t now columns).2.next_rid = t.next_rid + 1 ∧
     (∃ ridx, ridx < (Query.insert t now columns).2.page_ranges.length ∧
       ((Query.insert t now columns).2.page_ranges.getD ridx default).num_base_records =
         (t.page_ranges.getD ridx default).num_base_records + 1 ∧
       ∀ j, j ≠ ridx →
         ((Query.insert t now columns).2.page_ranges.getD j default).num_base_records =
           (t.page_ranges.getD j default).num_base_records) ∧
     ∀ j, ((Query.insert t now columns).2.page_ranges.getD j default).num_tail_records =
       (t.page_ranges.getD j default).num_tail_records) := by
  have hfail1 : ∀ (hc : columns.length ≠ t.num_columns),
      Table.insert t now columns = (t, none) := by
    intro hc
    unfold Table.insert
    rw [if_pos hc]
  refine ⟨?_, ?_, ?_⟩
  · intro hc
    show ((Table.insert t now columns).2.isSome, (Table.insert t now columns).1) =
      (false, t)
    rw [hfail1 hc]
    rfl
  · intro hc
    show ((Table.insert t now columns).2.isSome, (Table.insert t now columns).1) =
      (false, t)
    by_cases ha : columns.length ≠ t.num_columns
    · rw [hfail1 ha]
      rfl
    · have heq : Table.insert t now columns = (t, none) := by
        unfold Table.insert
        rw [if_neg ha, if_pos hc]
      rw [heq]
      rfl
  · intro h1 h2
    have hc1 : ¬columns.length ≠ t.num_columns := fun hh => hh h1
    have hc2 : ¬Index.locate t t.key (columns.getD t.key 0) ≠ ∅ := fun hh => hh h2
    have hnext1 : 1 ≤ t.next_rid := hWF.2.1
    have hWF1 : Table.WF { t with next_rid := t.next_rid + 1 } :=
      wf_bump_next t hWF _ (Nat.le_succ _)
    have hgs := get_or_create_spec _ hWF1
    obtain ⟨tg, ridx, hgk⟩ : ∃ a b,
        Table.get_or_create_page_range { t with next_rid := t.next_rid + 1 } =
          (a, b) := ⟨_, _, rfl⟩
    rw [hgk] at hgs
    have hgs2 : GotSpec { t with next_rid := t.next_rid + 1 } tg ridx := hgs
    obtain ⟨hq1, hq2, hq3, hq4, hq5, hq6, hq7, hq8, hq9, hq10, hq11, hq12, hq13,
      hq14, hq15⟩ := hgs2
    have hbl : (tg.page_ranges.getD ridx default).base_cols.length = 4 + t.num_columns := hq10
    have hq9c : ∀ j, j ≠ ridx →
        tg.page_ranges.getD j default = t.page_ranges.getD j default := hq9
    have hq14c : (tg.page_ranges.getD ridx default).num_base_records =
        (t.page_ranges.getD ridx default).num_base_records := hq14
    have hq15c : (tg.page_ranges.getD ridx default).num_tail_records =
        (t.page_ranges.getD ridx default).num_tail_records := hq15
    have hgidx : tg.indices = t.indices := hq4
    have hok4 : ∀ o ∈ ({ tg with page_ranges := tg.page_ranges.set ridx (((tg.page_ranges.getD ridx default).write_base_record ([0, t.next_rid, now, 0] ++ columns)).1), page_directory := dictSet tg.page_directory t.next_rid (ridx, false, ((tg.page_ranges.getD ridx default).write_base_record ([0, t.next_rid, now, 0] ++ columns)).2) } : Table).indices, IdxOKopt o := by
      intro o ho
      have ho2 : o ∈ tg.indices := ho
      rw [hgidx] at ho2
      exact hidx o ho2
    obtain ⟨t5, hloop, hf2, hf3, hf4⟩ :=
      insertIndicesLoop_ok columns t.next_rid (List.range tg.num_columns)
        ({ tg with page_ranges := tg.page_ranges.set ridx (((tg.page_ranges.getD ridx default).write_base_record ([0, t.next_rid, now, 0] ++ columns)).1), page_directory := dictSet tg.page_directory t.next_rid (ridx, false, ((tg.page_ranges.getD ridx default).write_base_record ([0, t.next_rid, now, 0] ++ columns)).2) }) hok4
    obtain ⟨w2, ok2, hw⟩ : ∃ a b, Table.insert t now columns = (a, b) :=
      ⟨_, _, rfl⟩
    have hq0 := hw
    unfold Table.insert at hw
    rw [if_neg hc1, if_neg hc2] at hw
    simp only [hgk, hloop] at hw
    injection hw with hinj1 hinj2
    have hqi : Query.insert t now columns = (ok2.isSome, w2) := by
      show ((Table.insert t now columns).2.isSome, (Table.insert t now columns).1) =
        _
      rw [hq0]
    have hwpd : w2.page_directory = dictSet tg.page_directory t.next_rid
        (ridx, false, (tg.page_ranges.getD ridx default).num_base_records) := by
      rw [← hinj1]
      show t5.page_directory = _
      exact hf2
    have hwpr : w2.page_ranges = tg.page_ranges.set ridx (((tg.page_ranges.getD ridx default).write_base_record ([0, t.next_rid, now, 0] ++ columns)).1) := by
      rw [← hinj1]
      show t5.page_ranges = _
      exact hf3
    have hwnr : w2.next_rid = t.next_rid + 1 := by
      rw [← hinj1]
      show t5.next_rid = _
      rw [hf4]
      exact hq3
    have hlenN : ridx < w2.page_ranges.length := by
      rw [hwpr]
      simp only [List.length_set]
      exact hq6
    have hdgN : dictGet w2.page_directory t.next_rid =
        some (ridx, false, (tg.page_ranges.getD ridx default).num_base_records) := by
      rw [hwpd]
      exact dictGet_dictSet_self _ _ _
    have hrdN : (w2.page_ranges.getD ridx default).read_base_record
        ((tg.page_ranges.getD ridx default).num_base_records) = [0, t.next_rid, now, 0] ++ columns := by
      show rowAt (w2.page_ranges.getD ridx default).base_cols _ = _
      rw [hwpr, getD_set_self default _ _ _ hq6, wbr_base_cols]
      exact rowAt_appendEach_last _ _ _
        (by rw [hbl]
            simp only [List.length_append, List.length_cons, List.length_nil,
              h1])
        hq11
    have hzN : ¬((w2.page_ranges.getD ridx default).read_base_record
        ((tg.page_ranges.getD ridx default).num_base_records)).getD RID_COLUMN 0 = DELETED_RID := by
      rw [hrdN]
      show ¬ t.next_rid = 0
      omega
    have hreadN : w2.read_record t.next_rid = some ([0, t.next_rid, now, 0] ++ columns) := by
      rw [read_record_eq w2 t.next_rid _ hdgN,
          readLoc_base w2.page_ranges ridx _ hlenN hzN, hrdN]
    have hmaster : ∀ j,
        ((w2.page_ranges.getD j default).num_base_records =
          if j = ridx then (t.page_ranges.getD j default).num_base_records + 1
          else (t.page_ranges.getD j default).num_base_records) ∧
        (w2.page_ranges.getD j default).num_tail_records =
          (t.page_ranges.getD j default).num_tail_records := by
      intro j
      rw [hwpr]
      by_cases hj : j = ridx
      · rw [hj, getD_set_self default _ _ _ hq6, wbr_num_base, wbr_num_tail,
          if_pos rfl]
        exact ⟨by rw [hq14c], hq15c⟩
      · rw [getD_set_ne default _ _ ridx j (fun hh => hj hh.symm), hq9c j hj,
          if_neg hj]
        exact ⟨rfl, rfl⟩
    rw [hqi]
    refine ⟨?_, hreadN, hwnr, ⟨ridx, hlenN, ?_, ?_⟩, fun j => (hmaster j).2⟩
    · rw [← hinj2]
      rfl
    · have h := (hmaster ridx).1
      rwa [if_pos rfl] at h
    · intro j hj
      have h := (hmaster j).1
      rwa [if_neg hj] at h

/-- C3 witness: inserting `[5, 50, 500]` into a fresh 3-column table
keyed on column 0. -/
theorem insert_error_and_success_witness :
    (([5, 50, 500] : List Nat).length ≠ (Table.new 3 0).num_columns →
      Query.insert (Table.new 3 0) 0 [5, 50, 500] = (false, (Table.new 3 0))) ∧
    (Index.locate (Table.new 3 0) (Table.new 3 0).key (([5, 50, 500] : List Nat).getD (Table.new 3 0).key 0) ≠ ∅ →
      Query.insert (Table.new 3 0) 0 [5, 50, 500] = (false, (Table.new 3 0))) ∧
    (([5, 50, 500] : List Nat).length = (Table.new 3 0).num_columns →
     Index.locate (Table.new 3 0) (Table.new 3 0).key (([5, 50, 500] : List Nat).getD (Table.new 3 0).key 0) = ∅ →
     (Query.insert (Table.new 3 0) 0 [5, 50, 500]).1 = true ∧
     (Query.insert (Table.new 3 0) 0 [5, 50, 500]).2.read_record (Table.new 3 0).next_rid = some ([0, (Table.new 3 0).next_rid, 0, 0] ++ [5, 50, 500]) ∧
     (Query.insert (Table.new 3 0) 0 [5, 50, 500]).2.next_rid = (Table.new 3 0).next_rid + 1 ∧
     (∃ ridx, ridx < (Query.insert (Table.new 3 0) 0 [5, 50, 500]).2.page_ranges.length ∧
       ((Query.insert (Table.new 3 0) 0 [5, 50, 500]).2.page_ranges.getD ridx default).num_base_records =
         ((Table.new 3 0).page_ranges.getD ridx default).num_base_records + 1 ∧
       ∀ j, j ≠ ridx →
         ((Query.insert (Table.new 3 0) 0 [5, 50, 500]).2.page_ranges.getD j default).num_base_records =
           ((Table.new 3 0).page_ranges.getD j default).num_base_records) ∧
     ∀ j, ((Query.insert (Table.new 3 0) 0 [5, 50, 500]).2.page_ranges.getD j default).num_tail_records =
       ((Table.new 3 0).page_ranges.getD j default).num_tail_records) :=
  insert_error_and_success (Table.new 3 0) 0 [5, 50, 500] (by decide) (by decide)

end LStore
